import Mathlib

/-!
Verification development for the BIPGroup6 museum-digitization pipeline.

The Python scripts are shallowly embedded: every regular expression of the
source is translated into an explicit character-list parser with the same
matching semantics (greedy repetition with the backtracking behaviour worked
out case by case, anchoring exactly as in the source pattern), `pathlib`
values become `FileEntry` records carrying the attributes the scripts read,
`sorted` becomes the stable `List.insertionSort` (Python's sort is stable and
any two stable sorts over a total preorder agree), Python `dict`s become
insertion-ordered association lists, and the OpenAI client becomes an oracle
of per-attempt outcomes.  ASCII is assumed for the digit/whitespace/lower
classes, matching the data the scripts process.
-/

namespace BIPGroup6

/-! ## Python string primitives -/

/-- ASCII whitespace as recognised by Python `str.strip()` and the regex
class `\s` (`\x0b` is vertical tab, `\x0c` form feed). -/
def isPySpace (c : Char) : Bool :=
  c = ' ' || c = '\t' || c = '\n' || c = '\r' || c = '\x0b' || c = '\x0c'

/-- Remove trailing whitespace (right half of Python `str.strip()`). -/
def stripRightL (l : List Char) : List Char :=
  (l.reverse.dropWhile isPySpace).reverse

/-- Python `str.strip()` on a character list. -/
def pyStripL (l : List Char) : List Char :=
  stripRightL (l.dropWhile isPySpace)

/-- Python `str.strip()`. -/
def pyStrip (s : String) : String := ⟨pyStripL s.data⟩

/-- Python `str.lower()` (ASCII case folding). -/
def pyLower (s : String) : String := ⟨s.data.map Char.toLower⟩

/-- Python `str.startswith` modelled on the underlying character lists. -/
def pyStartsWith (s pre : String) : Bool := pre.data.isPrefixOf s.data

/-- Numeric value of an ASCII digit character. -/
def digitVal (c : Char) : Nat := c.toNat - 48

/-- Python `int()` applied to a digit string. -/
def digitsToNat (l : List Char) : Nat := l.foldl (fun acc c => 10 * acc + digitVal c) 0

/-- All characters are ASCII digits. -/
def allDigits (l : List Char) : Bool := l.all Char.isDigit

/-- Greedy `\d+`-style split: the longest digit run at the front, and the rest. -/
def takeDigits (l : List Char) : List Char × List Char :=
  (l.takeWhile Char.isDigit, l.dropWhile Char.isDigit)

/-- Regex `\d{n}`: exactly `n` digits at the front; returns (digits, rest). -/
def parseNDigits (n : Nat) (l : List Char) : Option (List Char × List Char) :=
  let d := l.take n
  if d.length = n && allDigits d then some (d, l.drop n) else none

/-- Python code-point lexicographic string order (`s1 <= s2`), used for the
string components of sort-key tuples. -/
def lexLe : List Char → List Char → Bool
  | [], _ => true
  | _ :: _, [] => false
  | a :: as, b :: bs =>
    if a.val < b.val then true
    else if b.val < a.val then false
    else lexLe as bs

/-! ## Filesystem model -/

/-- A filesystem entry as the scripts observe it through `pathlib`:
`dir` is the containing directory (never consulted by the pipeline logic,
kept to state determinism results), `stem` and `ext` model `Path.stem` and
`Path.suffix` (so `Path.name = stem ++ ext`), `size` is the observed
`stat().st_size` (`-1` when `stat` raised `OSError`, as in `build_site.py`),
and `isFile` models `Path.is_file()`. -/
structure FileEntry where
  dir : String
  stem : String
  ext : String
  size : Int
  isFile : Bool
deriving DecidableEq, Repr

/-- Python `Path.name`. -/
def fname (p : FileEntry) : String := p.stem ++ p.ext

/-- The part of a `FileEntry` the pipeline logic can observe: everything
except the containing directory.  Used to state that the image index
depends only on names, sizes and file-kinds of the enumerated entries. -/
def fsSig (p : FileEntry) : String × String × Int × Bool :=
  (p.stem, p.ext, p.size, p.isFile)

/-- Extension allow-list, identical in `autoOpenAIDescription.py` and
`build_site.py` (`ALLOWED_EXTS`). -/
def ALLOWED_EXTS : List String := [".jpg", ".jpeg", ".png", ".tif", ".tiff", ".bmp"]

/-- Sort keys produced by the two `suffix_sort_key` variants: a pair of
sequence numbers plus a lowercased-string tiebreak. -/
abbrev SortKey := Nat × Nat × List Char

/-- Python tuple comparison `x <= y` on a sort key (component-wise
lexicographic, the string component by code points). -/
def keyLe (x y : SortKey) : Bool :=
  if x.1 < y.1 then true
  else if y.1 < x.1 then false
  else if x.2.1 < y.2.1 then true
  else if y.2.1 < x.2.1 then false
  else lexLe x.2.2 y.2.2

/-- The ordering `sorted(..., key=k)` sorts by: key comparison lifted to
entries. -/
def leByKey (k : FileEntry → SortKey) (a b : FileEntry) : Prop :=
  keyLe (k a) (k b) = true

instance (k : FileEntry → SortKey) : DecidableRel (leByKey k) :=
  fun a b => inferInstanceAs (Decidable (keyLe (k a) (k b) = true))

/-- Generic first-occurrence deduplication by a key, the common shape of
`unique_by_filename` (key = lowercased filename) and the
`collect_images_for_object` dedup (key = (lowercased filename, size)).
`seen` is the accumulator set, modelled as a list. -/
def dedupByAux {κ : Type} [DecidableEq κ] (key : FileEntry → κ) (seen : List κ) :
    List FileEntry → List FileEntry
  | [] => []
  | p :: rest =>
    if key p ∈ seen then dedupByAux key seen rest
    else p :: dedupByAux key (key p :: seen) rest

namespace AutoDesc

/-! Embedding of `scripts/autoOpenAIDescription.py`. -/

/-- Regex `OBJ_ID_PATTERN = ^(\d+)-(\d{4})-(\d{4})` applied with `.match`
(anchored at the start, tail unconstrained).  Greedy `\d+` needs no
backtracking here: a shorter digit run would leave a digit where `-` is
required.  Returns the three groups and the unmatched rest. -/
def matchObjId (l : List Char) : Option (List Char × List Char × List Char × List Char) :=
  let (p, r) := takeDigits l
  if p.isEmpty then none
  else
    match r with
    | '-' :: r1 =>
      match parseNDigits 4 r1 with
      | some (y, r2) =>
        match r2 with
        | '-' :: r3 =>
          match parseNDigits 4 r3 with
          | some (c, r4) => some (p, y, c, r4)
          | none => none
        | _ => none
      | none => none
    | _ => none

/-- `extract_object_id`: the object ID (first three blocks) from the
filename, `"-".join(m.groups())` on success. -/
def extract_object_id (filename : String) : Option String :=
  match matchObjId filename.data with
  | some (p, y, c, _) => some ⟨p ++ '-' :: (y ++ '-' :: c)⟩
  | none => none

/-- Regex `SUFFIX_PATTERN = ^\d+-\d{4}-\d{4}-(\d{3})-(\d{3})` (no end
anchor), applied with `.match` to the stem.  Returns the two captured
sequence groups and the rest. -/
def matchSuffix (l : List Char) : Option (List Char × List Char × List Char) :=
  match matchObjId l with
  | some (_, _, _, r) =>
    match r with
    | '-' :: r1 =>
      match parseNDigits 3 r1 with
      | some (a, r2) =>
        match r2 with
        | '-' :: r3 =>
          match parseNDigits 3 r3 with
          | some (b, r4) => some (a, b, r4)
          | none => none
        | _ => none
      | none => none
    | _ => none
  | none => none

/-- `suffix_sort_key` of `autoOpenAIDescription.py`: numeric pair plus
lowercased stem on a match, `(999999, 999999, lowercased name)` otherwise. -/
def suffix_sort_key (p : FileEntry) : SortKey :=
  match matchSuffix p.stem.data with
  | some (a, b, _) => (digitsToNat a, digitsToNat b, (pyLower p.stem).data)
  | none => (999999, 999999, (pyLower (fname p)).data)

/-- `is_image_file`: regular file with an allowed extension. -/
def is_image_file (p : FileEntry) : Bool :=
  p.isFile && ALLOWED_EXTS.contains (pyLower p.ext)

/-- The recursive scan of `collect_images_by_object`: all image files under
every root, in root order (a missing root contributes the empty list). -/
def collectFiles (roots : List (List FileEntry)) : List FileEntry :=
  roots.flatMap (fun root => root.filter is_image_file)

/-- The group that `collect_images_by_object` accumulates for `objId`:
exactly the scanned files whose name yields that object ID, in scan order
(`defaultdict` append order). -/
def groupFor (objId : String) (roots : List (List FileEntry)) : List FileEntry :=
  (collectFiles roots).filter (fun p => extract_object_id (fname p) == some objId)

/-- `unique_by_filename`: remove duplicates by lowercased filename,
first occurrence wins. -/
def unique_by_filename (paths : List FileEntry) : List FileEntry :=
  dedupByAux (fun p => pyLower (fname p)) [] paths

/-- One group of the mapping returned by `collect_images_by_object`:
dedup by lowercased filename, then `sorted(..., key=suffix_sort_key)`. -/
def collect_images_by_object (objId : String) (roots : List (List FileEntry)) :
    List FileEntry :=
  List.insertionSort (leByKey suffix_sort_key) (unique_by_filename (groupFor objId roots))

/-- Regex `OBJ_FROM_T1_PATTERN = ^\s*(\d+)S(\d{4})S(\d{4})` where `S` is
the two-character class containing `/` and `-` (spelled out because the
class literal cannot appear inside a Lean comment).  The
pattern is applied with `.search`, but `^` (without `re.MULTILINE`) only
matches at the start of the string, so search is equivalent to an anchored
match at position 0. -/
def matchT1 (l : List Char) : Option (List Char × List Char × List Char) :=
  match takeDigits (l.dropWhile isPySpace) with
  | (p, r1) =>
  if p.isEmpty then none
  else
    match r1 with
    | s1 :: r2 =>
      if s1 = '/' || s1 = '-' then
        match parseNDigits 4 r2 with
        | some (y, r3) =>
          match r3 with
          | s2 :: r4 =>
            if s2 = '/' || s2 = '-' then
              match parseNDigits 4 r4 with
              | some (c, _) => some (p, y, c)
              | none => none
            else none
          | [] => none
        | none => none
      else none
    | [] => none

/-- `normalize_obj_id_from_excel`: `None` stays `None`; otherwise strip,
match `OBJ_FROM_T1_PATTERN`, and render `f"{g1}-{g2}-{g3}"`. -/
def normalize_obj_id_from_excel (value : Option String) : Option String :=
  match value with
  | none => none
  | some v =>
    match matchT1 (pyStrip v).data with
    | some (p, y, c) => some ⟨p ++ '-' :: (y ++ '-' :: c)⟩
    | none => none

end AutoDesc

namespace BuildSite

/-! Embedding of `scripts/build_site.py`. -/

/-- Regex `SUFFIX_RE = ^\d+-\d{4}-\d{4}-(\d{3})-(\d{3})$` — identical to
the `autoOpenAIDescription.py` pattern except for the `$` anchor: the whole
stem must match. -/
def matchSuffixFull (l : List Char) : Option (List Char × List Char) :=
  match AutoDesc.matchSuffix l with
  | some (a, b, rest) => if rest.isEmpty then some (a, b) else none
  | none => none

/-- `suffix_sort_key` of `build_site.py` (tiebreak is the lowercased *name*
in both branches, unlike the other variant). -/
def suffix_sort_key (p : FileEntry) : SortKey :=
  match matchSuffixFull p.stem.data with
  | some (a, b) => (digitsToNat a, digitsToNat b, (pyLower (fname p)).data)
  | none => (999999, 999999, (pyLower (fname p)).data)

/-- Deduplication key of `collect_images_for_object`: (lowercased name,
observed size). -/
def keyNS (p : FileEntry) : String × Int := (pyLower (fname p), p.size)

/-- The candidate collection loop of `collect_images_for_object`: regular
files with an allowed extension whose lowercased name starts with
`<objId>-` (lowercased), gathered in root order. -/
def candidatesFor (objId : String) (roots : List (List FileEntry)) : List FileEntry :=
  roots.flatMap (fun root => root.filter (fun p =>
    p.isFile && ALLOWED_EXTS.contains (pyLower p.ext)
      && pyStartsWith (pyLower (fname p)) (pyLower (objId ++ "-"))))

/-- `collect_images_for_object`: gather candidates, de-duplicate by
(name, size) keeping the first occurrence, then sort by the suffix key. -/
def collect_images_for_object (objId : String) (roots : List (List FileEntry)) :
    List FileEntry :=
  List.insertionSort (leByKey suffix_sort_key) (dedupByAux keyNS [] (candidatesFor objId roots))

end BuildSite

namespace CopyRel

/-! Embedding of `scripts/copy_RelevantImages.py`. -/

/-- Regex `\s+(\d+)` (the `\s+` separator followed by the fourth group). -/
def parseSpaces1Digits1 (l : List Char) : Option (List Char × List Char) :=
  let sp := l.takeWhile isPySpace
  let r := l.dropWhile isPySpace
  if sp.isEmpty then none
  else
    let (d, r2) := takeDigits r
    if d.isEmpty then none else some (d, r2)

/-- Regex `(\d{3,4})\s+(\d+)` with the greedy/backtracking behaviour of
`re`: four digits are preferred; if the continuation fails after four, three
digits are retried. -/
def parseG34 (l : List Char) : Option (List Char × List Char × List Char) :=
  match parseNDigits 4 l with
  | some (g3, r) =>
    match parseSpaces1Digits1 r with
    | some (g4, r2) => some (g3, g4, r2)
    | none =>
      match parseNDigits 3 l with
      | some (g3b, rb) =>
        match parseSpaces1Digits1 rb with
        | some (g4, r2) => some (g3b, g4, r2)
        | none => none
      | none => none
  | none =>
    match parseNDigits 3 l with
    | some (g3b, rb) =>
      match parseSpaces1Digits1 rb with
      | some (g4, r2) => some (g3b, g4, r2)
      | none => none
    | none => none

/-- Regex `OBJ_RE = (\d+)\s*/\s*(\d{4})\s*/\s*(\d{3,4})\s+(\d+)` matched at
one fixed position (the body of the unanchored search).  Greedy `\d+` and
`\s*` need no backtracking: shortening either leaves a digit or a space
where `/` is required. -/
def matchObjRe (l : List Char) : Option (List Char × List Char × List Char × List Char) :=
  let (g1, r1) := takeDigits l
  if g1.isEmpty then none
  else
    match r1.dropWhile isPySpace with
    | '/' :: r2 =>
      match parseNDigits 4 (r2.dropWhile isPySpace) with
      | some (year, r4) =>
        match r4.dropWhile isPySpace with
        | '/' :: r5 =>
          match parseG34 (r5.dropWhile isPySpace) with
          | some (g3, g4, _) => some (g1, year, g3, g4)
          | none => none
        | _ => none
      | none => none
    | _ => none

/-- `re.search` with `OBJ_RE`: the leftmost position where the pattern
matches. -/
def searchObjRe : List Char → Option (List Char × List Char × List Char × List Char)
  | [] => matchObjRe []
  | c :: t =>
    match matchObjRe (c :: t) with
    | some r => some r
    | none => searchObjRe t

/-- `parse_object_number` of `copy_RelevantImages.py`: non-strings give
`None`; otherwise search anywhere in the cell and build
`base_prefix = f"{g1}-{year}-{g3}-"` together with the year. -/
def parse_object_number (raw : Option String) : Option (String × String) :=
  match raw with
  | none => none
  | some s =>
    match searchObjRe s.data with
    | some (g1, year, g3, _) =>
      some (⟨g1 ++ '-' :: (year ++ '-' :: (g3 ++ ['-']))⟩, ⟨year⟩)
    | none => none

end CopyRel

namespace CopyExcel

/-! Embedding of `scripts/copy_images_from_excel.py`. -/

/-- Regex `\s+(\d+)\s*$`: separator, variant group, optional trailing
whitespace, end of string. -/
def parseSpacesDigitsEnd (l : List Char) : Option (List Char) :=
  let sp := l.takeWhile isPySpace
  let r := l.dropWhile isPySpace
  if sp.isEmpty then none
  else
    let (d, r2) := takeDigits r
    if d.isEmpty then none
    else if (r2.dropWhile isPySpace).isEmpty then some d else none

/-- Regex `OBJECT_REGEX = ^\s*(\d+)S(\d{4})S(\d{4})\s+(\d+)\s*$` where `S`
is the class containing `/` and `-` (as in the `matchT1` comment), applied
with `.match`; together with `$` this is a full anchored match. -/
def matchObjExcel (l : List Char) :
    Option (List Char × List Char × List Char × List Char) :=
  let l1 := l.dropWhile isPySpace
  let (g1, r1) := takeDigits l1
  if g1.isEmpty then none
  else
    match r1 with
    | s1 :: r2 =>
      if s1 = '/' || s1 = '-' then
        match parseNDigits 4 r2 with
        | some (year, r3) =>
          match r3 with
          | s2 :: r4 =>
            if s2 = '/' || s2 = '-' then
              match parseNDigits 4 r4 with
              | some (code, r5) =>
                match parseSpacesDigitsEnd r5 with
                | some variant => some (g1, year, code, variant)
                | none => none
              | none => none
            else none
          | [] => none
        | none => none
      else none
    | [] => none

/-- `parse_object_number` of `copy_images_from_excel.py`: `None` and empty
(after strip) give `None`; otherwise the full anchored match.  Returns
`(original, g1, year, code, variant)`. -/
def parse_object_number (value : Option String) :
    Option (String × String × String × String × String) :=
  match value with
  | none => none
  | some v =>
    let s := pyStrip v
    if s = "" then none
    else
      match matchObjExcel s.data with
      | some (g1, year, code, variant) =>
        some (s, ⟨g1⟩, ⟨year⟩, ⟨code⟩, ⟨variant⟩)
      | none => none

end CopyExcel

namespace AutoDesc

/-! Metadata machinery of `scripts/autoOpenAIDescription.py`. -/

/-- The fixed metadata schema (`FIELDS_ORDER` names the same eight fields). -/
inductive MetaField
  | inventoryNo
  | contributors
  | materials
  | dimensions
  | location
  | locationDescription
  | detailedObjectName
  | yearOfManufacture
deriving DecidableEq, Repr

/-- `FIELDS_ORDER`. -/
def FIELDS_ORDER : List MetaField :=
  [.inventoryNo, .contributors, .materials, .dimensions, .location,
   .locationDescription, .detailedObjectName, .yearOfManufacture]

/-- `safe_str`: `None`/`NaN` (modelled by `none`) give `"No Data"`, other
values are stripped, with the empty string also mapped to `"No Data"`. -/
def safe_str : Option String → String
  | none => "No Data"
  | some x => if pyStrip x = "" then "No Data" else pyStrip x

/-- A spreadsheet row after the header normalisation in
`read_metadata_excel`: the eight extracted cells, keyed by their target
field (`t1 ↦ InventoryNo`, ...); `none` models a missing/`NaN` cell. -/
abbrev XRow := MetaField → Option String

/-- A metadata dict entry; `none` models an absent key (entries built by
`read_metadata_excel` always carry all eight keys). -/
abbrev MetaEntry := MetaField → Option String

/-- One mapping `'1-1997-1063' -> entry`, as an insertion-ordered
association list with unique keys (a Python `dict`). -/
abbrev MetaMap := List (String × MetaEntry)

/-- Python `dict` assignment `mapping[k] = v`: replace in place if the key
exists, append otherwise. -/
def dictInsert (m : MetaMap) (k : String) (v : MetaEntry) : MetaMap :=
  if m.any (fun p => p.1 == k) then
    m.map (fun p => if p.1 == k then (k, v) else p)
  else m ++ [(k, v)]

/-- Python `mapping.get(k)` / `mapping[k]` on the association list. -/
def dictGet (m : MetaMap) (k : String) : Option MetaEntry :=
  (m.find? (fun p => p.1 == k)).map (fun p => p.2)

/-- The entry built for one row in `read_metadata_excel`: every field is
`safe_str` of its cell, and an `InventoryNo` that came out as `"No Data"`
is replaced by the normalised object id. -/
def read_entry (obj : String) (row : XRow) : MetaEntry :=
  fun f =>
    some (if f = MetaField.inventoryNo ∧ safe_str (row MetaField.inventoryNo) = "No Data"
      then obj else safe_str (row f))

/-- `read_metadata_excel` (after the pandas loading, which is external):
rows whose `t1` cell does not normalise are skipped; all others are keyed
by the normalised id.  The `obj = ""` test models Python's falsiness check
`if not obj_norm` (the normaliser never returns an empty string, but the
source tests for it). -/
def readStep (mapping : MetaMap) (row : XRow) : MetaMap :=
  match normalize_obj_id_from_excel (row MetaField.inventoryNo) with
  | none => mapping
  | some obj =>
    if obj = "" then mapping else dictInsert mapping obj (read_entry obj row)

def read_metadata_excel (rows : List XRow) : MetaMap :=
  rows.foldl readStep []

/-- The row-acceptance test of `read_metadata_excel`: a row is kept exactly
when its object-number cell normalises (and, per Python falsiness, is not
the empty string). -/
def keptRow (row : XRow) : Bool :=
  match normalize_obj_id_from_excel (row MetaField.inventoryNo) with
  | some s => decide (s ≠ "")
  | none => false

/-- The inner field-filling pass of `build_metadata_for_object`: for each
field still at the sentinel whose key is present in `found` with a
non-sentinel `safe_str` value, copy that value.  The Python loop touches
each field of `FIELDS_ORDER` exactly once and reads only the same field of
`base`, so the pointwise form is exact. -/
def applyFound (base : MetaField → String) (found : MetaEntry) : MetaField → String :=
  fun k =>
    match found k with
    | some v =>
      if base k = "No Data" ∧ safe_str (some v) ≠ "No Data" then safe_str (some v)
      else base k
    | none => base k

/-- The early-exit test `all(base[k] != "No Data" for k in FIELDS_ORDER)`. -/
def allFilled (base : MetaField → String) : Bool :=
  FIELDS_ORDER.all (fun k => decide (base k ≠ "No Data"))

/-- The source-priority loop of `build_metadata_for_object`, with the
`break` once every field is filled (the Python local `base` after one
source is `applyFound base found`; it is written out twice here instead of
let-bound). -/
def mergeLoop (objId : String) (base : MetaField → String) :
    List MetaMap → MetaField → String
  | [] => base
  | mp :: rest =>
    match dictGet mp objId with
    | some found =>
      if allFilled (applyFound base found) then applyFound base found
      else mergeLoop objId (applyFound base found) rest
    | none => mergeLoop objId base rest

/-- `build_metadata_for_object`: run the priority merge from the
all-sentinel record, then substitute the identifier for a still-missing
inventory number. -/
def build_metadata_for_object (objId : String) (maps : List MetaMap) :
    MetaField → String :=
  fun k =>
    if mergeLoop objId (fun _ => "No Data") maps MetaField.inventoryNo = "No Data"
        ∧ k = MetaField.inventoryNo then objId
    else mergeLoop objId (fun _ => "No Data") maps k

/-- Specification-side characterisation used to state the merge claim: the
first non-sentinel `safe_str` value that the sources in priority order
offer for `objId` at field `k`. -/
def firstFieldValue (objId : String) (k : MetaField) : List MetaMap → Option String
  | [] => none
  | mp :: rest =>
    match dictGet mp objId with
    | some found =>
      match found k with
      | some v =>
        if safe_str (some v) ≠ "No Data" then some (safe_str (some v))
        else firstFieldValue objId k rest
      | none => firstFieldValue objId k rest
    | none => firstFieldValue objId k rest

/-- `metadata_csv_line`: the fixed-order comma-joined serialisation. -/
def metadata_csv_line (meta : MetaField → String) : String :=
  String.intercalate ", " (FIELDS_ORDER.map meta)

/-! OpenAI call with retry. -/

/-- `MAX_RETRIES`. -/
def MAX_RETRIES : Nat := 6

/-- One attempt of the chat-completion call, as the run loop observes it:
either the returned text or the `str(e)` of the raised exception. -/
inductive ApiOutcome
  | success (text : String)
  | failure (msg : String)
deriving DecidableEq, Repr

/-- Substring test on character lists. -/
def listContains (needle : List Char) : List Char → Bool
  | [] => needle.isEmpty
  | c :: rest => needle.isPrefixOf (c :: rest) || listContains needle rest

/-- Substring test, Python `needle in hay`. -/
def strContains (hay needle : String) : Bool :=
  listContains needle.data hay.data

/-- The rate-limit classification `"429" in msg or "rate_limit" in msg.lower()`. -/
def isRateLimitMsg (msg : String) : Bool :=
  strContains msg "429" || strContains (pyLower msg) "rate_limit"

/-- The transient-server classification
`any(code in msg for code in ["500", "502", "503", "504"])`. -/
def isServerMsg (msg : String) : Bool :=
  ["500", "502", "503", "504"].any (fun code => strContains msg code)

/-- Regex `WAIT_HINT_PATTERN = try again in ([0-9]+(\.[0-9]+)?)s` with
`re.IGNORECASE`, matched at one position: the literal (case-insensitively),
an integer part, an optional fractional part, then `s`.  The greedy
optional group backtracks exactly as `re` does: the fractional branch is
preferred and the plain branch retried if `s` does not follow.  Returns
`float(group(1))` as an exact rational (the binary-float rounding of
Python's `float` is not modelled; no claim depends on the value). -/
def matchWaitHintAt (l : List Char) : Option ℚ :=
  let lit : List Char := "try again in ".data
  if lit.isPrefixOf (l.map Char.toLower) then
    let r := l.drop lit.length
    let (d, r1) := takeDigits r
    if d.isEmpty then none
    else
      match r1 with
      | '.' :: r2 =>
        let (f, r3) := takeDigits r2
        if !f.isEmpty && (r3.head?.map Char.toLower == some 's') then
          some ((digitsToNat d : ℚ) + (digitsToNat f : ℚ) / ((10 : ℚ) ^ f.length))
        else if r1.head?.map Char.toLower == some 's' then some (digitsToNat d : ℚ)
        else none
      | _ =>
        if r1.head?.map Char.toLower == some 's' then some (digitsToNat d : ℚ)
        else none
  else none

/-- `WAIT_HINT_PATTERN.search`: leftmost matching position. -/
def searchWaitHint : List Char → Option ℚ
  | [] => matchWaitHintAt []
  | c :: t =>
    match matchWaitHintAt (c :: t) with
    | some q => some q
    | none => searchWaitHint t

/-- Result of `call_openai_with_retry` as the caller observes it. -/
inductive CallOutcome
  | ok (text : String)
  | raised (msg : String)
  | maxRetriesExceeded
deriving DecidableEq, Repr

/-- Trace of one execution of the retry loop: the outcome, the number of
API calls performed, and the `time.sleep` durations in order (exact
rationals standing for the float arithmetic of the source). -/
structure RetryTrace where
  outcome : CallOutcome
  calls : Nat
  sleeps : List ℚ
deriving Repr

/-- `REQUEST_COOLDOWN_SEC = 2.5`. -/
def REQUEST_COOLDOWN_SEC : ℚ := 5 / 2

/-- The body of `call_openai_with_retry`: `call n` is the outcome of the
`n`-th attempt (1-based), `jitter n` the value `random.uniform(0, 0.5)`
drawn on that attempt, `wait` the current backoff, `remaining` the
attempts left of the `range(1, MAX_RETRIES + 1)` loop.  On a rate-limit
error the hint from the message (if any, and non-zero — Python tests the
float for truthiness) overrides the backoff; on either transient error the
backoff is updated to `min(wait * 1.8, 30.0)`; any other exception
re-raises. -/
def runRetryAux (call : Nat → ApiOutcome) (jitter : Nat → ℚ)
    (attempt : Nat) (wait : ℚ) : Nat → RetryTrace
  | 0 => ⟨.maxRetriesExceeded, 0, []⟩
  | remaining + 1 =>
    match call attempt with
    | .success t => ⟨.ok (pyStrip t), 1, [REQUEST_COOLDOWN_SEC]⟩
    | .failure msg =>
      if isRateLimitMsg msg then
        let hinted := searchWaitHint msg.data
        let base :=
          match hinted with
          | some h => if h = 0 then wait else h + 1 / 2
          | none => wait
        let sleepFor := base + jitter attempt
        let t := runRetryAux call jitter (attempt + 1) (min (wait * (9 / 5)) 30) remaining
        ⟨t.outcome, t.calls + 1, sleepFor :: t.sleeps⟩
      else if isServerMsg msg then
        let sleepFor := wait + jitter attempt
        let t := runRetryAux call jitter (attempt + 1) (min (wait * (9 / 5)) 30) remaining
        ⟨t.outcome, t.calls + 1, sleepFor :: t.sleeps⟩
      else ⟨.raised msg, 1, []⟩

/-- `call_openai_with_retry`: initial backoff `wait = 2.0`, at most
`MAX_RETRIES` attempts, `RuntimeError` when the loop falls through. -/
def call_openai_with_retry (call : Nat → ApiOutcome) (jitter : Nat → ℚ) : RetryTrace :=
  runRetryAux call jitter 1 2 MAX_RETRIES

/-- The message of the `RuntimeError` raised after the loop. -/
def maxRetriesMsg : String :=
  "Maximum retry attempts reached (rate limit / server error)."

/-- The exception text `str(e)` that `main` observes from
`describe_object`, per outcome. -/
def outcomeToExcept (t : RetryTrace) : Except String String :=
  match t.outcome with
  | .ok s => .ok s
  | .raised m => .error m
  | .maxRetriesExceeded => .error maxRetriesMsg

/-- The backoff value before the `n`-th update (`waitIter 0 = 2.0`, then
`min(wait * 1.8, 30.0)` each transient failure). -/
def waitIter : Nat → ℚ
  | 0 => 2
  | n + 1 => min (waitIter n * (9 / 5)) 30

/-! The `main` run loop. -/

/-- One row of the persisted `descriptions.xlsx` result store. -/
structure ResultRow where
  object_id : String
  description : String
  metadata : String
deriving DecidableEq, Repr

/-- The `done` set reconstructed on resume:
`{str(x).strip() for x in df_exist.get("object_id", [])}` (list membership
models set membership). -/
def doneFrom (store : List ResultRow) : List String :=
  store.map (fun r => pyStrip r.object_id)

/-- `BATCH_LIMIT = 10`. -/
def BATCH_LIMIT : Nat := 10

/-- The row appended for one newly processed object: `descOf` is the
outcome of `describe_object` for that identifier (text, or the exception
message caught by `main`, which becomes the error placeholder). -/
def processRow (descOf : String → Except String String) (mdMaps : List MetaMap)
    (o : String) : ResultRow :=
  { object_id := o
    description :=
      match descOf o with
      | .ok t => t
      | .error e => "[Error during description: " ++ e ++ "]"
    metadata := metadata_csv_line (build_metadata_for_object o mdMaps) }

/-- The per-object loop of `main` over the sorted object ids: identifiers
already in `done` are skipped without counting; the loop breaks once the
batch budget (`BATCH_LIMIT` minus the new objects processed so far, carried
here as `budget`) is exhausted; each processed identifier is appended to the
result rows and added to `done`.  Returns the rows appended this run, in
order. -/
def runLoop (descOf : String → Except String String) (mdMaps : List MetaMap)
    (done : List String) (budget : Nat) : List String → List ResultRow
  | [] => []
  | o :: rest =>
    if o ∈ done then runLoop descOf mdMaps done budget rest
    else
      match budget with
      | 0 => []
      | b + 1 =>
        processRow descOf mdMaps o :: runLoop descOf mdMaps (o :: done) b rest

/-- The rows `main` appends in one invocation, starting from the
reconstructed `done` set with the full `BATCH_LIMIT` budget. -/
def mainNewRows (descOf : String → Except String String) (mdMaps : List MetaMap)
    (store : List ResultRow) (allObjs : List String) : List ResultRow :=
  runLoop descOf mdMaps (doneFrom store) BATCH_LIMIT allObjs

end AutoDesc

/-! ## Character-class and parsing lemmas -/

theorem isPySpace_eq_false_of_isDigit {ch : Char} (h : ch.isDigit = true) :
    isPySpace ch = false := by
  by_contra hne
  have hsp : isPySpace ch = true := by
    revert hne
    cases isPySpace ch <;> simp
  simp only [isPySpace, Bool.or_eq_true, decide_eq_true_eq] at hsp
  rcases hsp with ((((h1 | h1) | h1) | h1) | h1) | h1 <;> subst h1 <;>
    exact absurd h (by decide)

theorem takeDigits_append {p : List Char} (hp : allDigits p = true) {c : Char}
    (hc : c.isDigit = false) (r : List Char) : takeDigits (p ++ c :: r) = (p, c :: r) := by
  unfold takeDigits
  induction p with
  | nil => simp [List.takeWhile_cons, List.dropWhile_cons, hc]
  | cons d p' ih =>
    simp only [allDigits, List.all_cons, Bool.and_eq_true] at hp
    have ih' := ih (by simpa [allDigits] using hp.2)
    simp only [List.cons_append, List.takeWhile_cons, List.dropWhile_cons, hp.1, if_true]
    simp only [Prod.mk.injEq] at ih' ⊢
    exact ⟨congrArg (d :: ·) ih'.1, ih'.2⟩

theorem parseNDigits_append {n : Nat} {d : List Char} (r : List Char)
    (hl : d.length = n) (hd : allDigits d = true) :
    parseNDigits n (d ++ r) = some (d, r) := by
  subst hl
  unfold parseNDigits
  rw [List.take_left, List.drop_left]
  simp [hd]

theorem dropWhile_space_append {ws : List Char} (l : List Char)
    (h : ws.all isPySpace = true) :
    (ws ++ l).dropWhile isPySpace = l.dropWhile isPySpace := by
  induction ws with
  | nil => simp
  | cons w ws' ih =>
    simp only [List.all_cons, Bool.and_eq_true] at h
    simp [List.dropWhile_cons, h.1, ih h.2]

theorem dropWhile_space_cons {c : Char} (t : List Char) (h : isPySpace c = false) :
    (c :: t).dropWhile isPySpace = c :: t := by
  simp [List.dropWhile_cons, h]

theorem dropWhile_space_append_nonspace :
    ∀ (X : List Char) {c : Char} (Y : List Char), isPySpace c = false →
    ∃ t, (X ++ c :: Y).dropWhile isPySpace = t ++ c :: Y
  | [], c, Y, h => ⟨[], by simp [List.dropWhile_cons, h]⟩
  | x :: X', c, Y, h => by
    by_cases hx : isPySpace x = true
    · obtain ⟨t, ht⟩ := dropWhile_space_append_nonspace X' Y h
      exact ⟨t, by simp [List.dropWhile_cons, hx, ht]⟩
    · exact ⟨x :: X', by simp [List.dropWhile_cons, hx]⟩

theorem stripRightL_keeps (A : List Char) {c : Char} (tail : List Char)
    (h : isPySpace c = false) :
    ∃ t, stripRightL (A ++ c :: tail) = A ++ c :: t := by
  unfold stripRightL
  have : (A ++ c :: tail).reverse = tail.reverse ++ c :: A.reverse := by
    simp [List.reverse_append, List.reverse_cons, List.append_assoc]
  rw [this]
  obtain ⟨t, ht⟩ := dropWhile_space_append_nonspace tail.reverse A.reverse h
  rw [ht]
  exact ⟨t.reverse, by simp [List.reverse_append, List.reverse_cons, List.append_assoc]⟩

theorem sep_not_digit {s : Char} (hs : s = '/' ∨ s = '-') : s.isDigit = false := by
  rcases hs with h | h <;> subst h <;> decide

theorem allDigits_head_digit {d : Char} {p' : List Char}
    (hp : allDigits (d :: p') = true) : d.isDigit = true := by
  simp only [allDigits, List.all_cons, Bool.and_eq_true] at hp
  exact hp.1

/-- Evaluation of `matchT1` on a decomposed accepted identifier body. -/
theorem matchT1_eval {p y c : List Char} (t : List Char) {s₁ s₂ : Char}
    (hp0 : p ≠ []) (hp : allDigits p = true)
    (hy4 : y.length = 4) (hy : allDigits y = true)
    (hc4 : c.length = 4) (hc : allDigits c = true)
    (hs₁ : s₁ = '/' ∨ s₁ = '-') (hs₂ : s₂ = '/' ∨ s₂ = '-') :
    AutoDesc.matchT1 (p ++ s₁ :: (y ++ s₂ :: (c ++ t))) = some (p, y, c) := by
  obtain ⟨d, p', rfl⟩ : ∃ d p', p = d :: p' := by
    cases p with
    | nil => exact absurd rfl hp0
    | cons d p' => exact ⟨d, p', rfl⟩
  have hd : d.isDigit = true := allDigits_head_digit hp
  unfold AutoDesc.matchT1
  rw [show ((d :: p') ++ s₁ :: (y ++ s₂ :: (c ++ t))) =
      d :: (p' ++ s₁ :: (y ++ s₂ :: (c ++ t))) from rfl,
    dropWhile_space_cons _ (isPySpace_eq_false_of_isDigit hd),
    show d :: (p' ++ s₁ :: (y ++ s₂ :: (c ++ t))) =
      (d :: p') ++ s₁ :: (y ++ s₂ :: (c ++ t)) from rfl,
    takeDigits_append hp (sep_not_digit hs₁)]
  have hs₁' : (s₁ = '/' || s₁ = '-') = true := by
    rcases hs₁ with h | h <;> subst h <;> decide
  have hs₂' : (s₂ = '/' || s₂ = '-') = true := by
    rcases hs₂ with h | h <;> subst h <;> decide
  simp only [List.isEmpty_cons, Bool.false_eq_true, if_false, hs₁', if_true,
    parseNDigits_append (s₂ :: (c ++ t)) hy4 hy, hs₂',
    parseNDigits_append t hc4 hc]

/-- Evaluation of the full normalizer on a raw cell of accepted shape:
leading whitespace, the three numeric groups with either separator, and an
arbitrary trailer.  The result only depends on the groups. -/
theorem normalize_eval {p y c : List Char} (ws tail : List Char) {s₁ s₂ : Char}
    (hp0 : p ≠ []) (hp : allDigits p = true)
    (hy4 : y.length = 4) (hy : allDigits y = true)
    (hc4 : c.length = 4) (hc : allDigits c = true)
    (hs₁ : s₁ = '/' ∨ s₁ = '-') (hs₂ : s₂ = '/' ∨ s₂ = '-')
    (hws : ws.all isPySpace = true) :
    AutoDesc.normalize_obj_id_from_excel (some ⟨ws ++ p ++ s₁ :: (y ++ s₂ :: (c ++ tail))⟩)
      = some ⟨p ++ '-' :: (y ++ '-' :: c)⟩ := by
  have hc0 : c ≠ [] := by
    intro h
    rw [h] at hc4
    exact absurd hc4 (by decide)
  have hcl : (c.getLast hc0).isDigit = true :=
    (List.all_eq_true.mp hc) _ (List.getLast_mem hc0)
  -- strip: drop the leading whitespace, and the right strip leaves the body
  -- (which ends in the last digit of `c`) intact.
  obtain ⟨d, p', rfl⟩ : ∃ d p', p = d :: p' := by
    cases p with
    | nil => exact absurd rfl hp0
    | cons d p' => exact ⟨d, p', rfl⟩
  have hd : d.isDigit = true := allDigits_head_digit hp
  have hstrip :
      ∃ t, pyStripL (ws ++ (d :: p') ++ s₁ :: (y ++ s₂ :: (c ++ tail)))
        = (d :: p') ++ s₁ :: (y ++ s₂ :: (c ++ t)) := by
    unfold pyStripL
    rw [List.append_assoc, dropWhile_space_append _ hws,
      show ((d :: p') ++ s₁ :: (y ++ s₂ :: (c ++ tail))) =
        d :: (p' ++ s₁ :: (y ++ s₂ :: (c ++ tail))) from rfl,
      dropWhile_space_cons _ (isPySpace_eq_false_of_isDigit hd)]
    have hshape : d :: (p' ++ s₁ :: (y ++ s₂ :: (c ++ tail)))
        = ((d :: p') ++ s₁ :: (y ++ s₂ :: c.dropLast)) ++ c.getLast hc0 :: tail := by
      conv_lhs => rw [← List.dropLast_append_getLast hc0]
      simp [List.append_assoc]
    rw [hshape]
    obtain ⟨t, ht⟩ := stripRightL_keeps ((d :: p') ++ s₁ :: (y ++ s₂ :: c.dropLast)) tail
      (isPySpace_eq_false_of_isDigit hcl)
    rw [ht]
    refine ⟨t, ?_⟩
    conv_rhs => rw [← List.dropLast_append_getLast hc0]
    simp [List.append_assoc]
  obtain ⟨t, ht⟩ := hstrip
  show AutoDesc.normalize_obj_id_from_excel _ = _
  unfold AutoDesc.normalize_obj_id_from_excel pyStrip
  simp only [String.data]
  rw [ht, matchT1_eval t hp0 hp hy4 hy hc4 hc hs₁ hs₂]

/-! ## Claim C3 -/

/-- C3 (confirmed): any two accepted raw identifier strings carrying the
same three numeric groups `p`, `y`, `c` — whatever their leading whitespace
`ws`, their separators (each independently `/` or `-`) and their trailer
(which subsumes trailing whitespace and the variant block) — normalise to
the same canonical identifier, namely `p-y-c`. -/
theorem claim3_normalizer_canonical {p y c : List Char}
    (ws₁ ws₂ tail₁ tail₂ : List Char) {s₁ s₂ s₃ s₄ : Char}
    (hp0 : p ≠ []) (hp : allDigits p = true)
    (hy4 : y.length = 4) (hy : allDigits y = true)
    (hc4 : c.length = 4) (hc : allDigits c = true)
    (hs₁ : s₁ = '/' ∨ s₁ = '-') (hs₂ : s₂ = '/' ∨ s₂ = '-')
    (hs₃ : s₃ = '/' ∨ s₃ = '-') (hs₄ : s₄ = '/' ∨ s₄ = '-')
    (hws₁ : ws₁.all isPySpace = true) (hws₂ : ws₂.all isPySpace = true) :
    AutoDesc.normalize_obj_id_from_excel
        (some ⟨ws₁ ++ p ++ s₁ :: (y ++ s₂ :: (c ++ tail₁))⟩)
      = AutoDesc.normalize_obj_id_from_excel
        (some ⟨ws₂ ++ p ++ s₃ :: (y ++ s₄ :: (c ++ tail₂))⟩)
    ∧ AutoDesc.normalize_obj_id_from_excel
        (some ⟨ws₁ ++ p ++ s₁ :: (y ++ s₂ :: (c ++ tail₁))⟩)
      = some ⟨p ++ '-' :: (y ++ '-' :: c)⟩ := by
  have h₁ := normalize_eval ws₁ tail₁ hp0 hp hy4 hy hc4 hc hs₁ hs₂ hws₁
  have h₂ := normalize_eval ws₂ tail₂ hp0 hp hy4 hy hc4 hc hs₃ hs₄ hws₂
  exact ⟨h₁.trans h₂.symm, h₁⟩

/-- Witness for C3 at the concrete inputs `"  1/1997/1063 0 "` and
`"1-1997-1063"`. -/
theorem claim3_witness :
    AutoDesc.normalize_obj_id_from_excel (some "  1/1997/1063 0 ")
      = AutoDesc.normalize_obj_id_from_excel (some "1-1997-1063")
    ∧ AutoDesc.normalize_obj_id_from_excel (some "  1/1997/1063 0 ")
      = some "1-1997-1063" := by
  have h := @claim3_normalizer_canonical "1".data "1997".data "1063".data
    "  ".data "".data " 0 ".data "".data '/' '/' '-' '-'
    (by decide) (by decide) (by decide) (by decide) (by decide) (by decide)
    (Or.inl rfl) (Or.inl rfl) (Or.inr rfl) (Or.inr rfl) (by decide) (by decide)
  exact h

/-! ## Claim C9 -/

theorem stripRightL_isPrefix (l : List Char) : stripRightL l <+: l := by
  unfold stripRightL
  obtain ⟨u, hu⟩ : l.reverse.dropWhile isPySpace <:+ l.reverse := List.dropWhile_suffix _
  exact ⟨u.reverse, by rw [← List.reverse_append, hu, List.reverse_reverse]⟩

theorem matchT1_none_of_head {ch : Char} (X : List Char)
    (hsp : isPySpace ch = false) (hd : ch.isDigit = false) :
    AutoDesc.matchT1 (ch :: X) = none := by
  unfold AutoDesc.matchT1
  rw [dropWhile_space_cons _ hsp]
  simp [takeDigits, List.takeWhile_cons, hd]

theorem normalize_none_of_head {ch : Char} (rest : List Char)
    (hsp : isPySpace ch = false) (hd : ch.isDigit = false) :
    AutoDesc.normalize_obj_id_from_excel (some ⟨ch :: rest⟩) = none := by
  unfold AutoDesc.normalize_obj_id_from_excel pyStrip pyStripL
  simp only [String.data]
  rw [dropWhile_space_cons _ hsp]
  obtain ⟨u, hu⟩ := stripRightL_isPrefix (ch :: rest)
  cases hsr : stripRightL (ch :: rest) with
  | nil => rfl
  | cons s0 s' =>
    rw [hsr] at hu
    have : s0 = ch := by
      have := congrArg (fun l => l.head?) hu
      simpa using this
    subst this
    rw [matchT1_none_of_head s' hsp hd]

theorem matchObjExcel_none_of_head {ch : Char} (X : List Char)
    (hsp : isPySpace ch = false) (hd : ch.isDigit = false) :
    CopyExcel.matchObjExcel (ch :: X) = none := by
  unfold CopyExcel.matchObjExcel
  rw [dropWhile_space_cons _ hsp]
  simp [takeDigits, List.takeWhile_cons, hd]

theorem copyExcel_none_of_head {ch : Char} (rest : List Char)
    (hsp : isPySpace ch = false) (hd : ch.isDigit = false) :
    CopyExcel.parse_object_number (some ⟨ch :: rest⟩) = none := by
  unfold CopyExcel.parse_object_number
  simp only
  by_cases hs : pyStrip ⟨ch :: rest⟩ = ""
  · simp [hs]
  · simp only [hs, if_false]
    have hdata : (pyStrip ⟨ch :: rest⟩).data = pyStripL (ch :: rest) := rfl
    unfold pyStripL at hdata
    rw [dropWhile_space_cons _ hsp] at hdata
    obtain ⟨u, hu⟩ := stripRightL_isPrefix (ch :: rest)
    cases hsr : stripRightL (ch :: rest) with
    | nil =>
      exact absurd (show pyStrip ⟨ch :: rest⟩ = "" by
        apply String.ext
        rw [hdata, hsr]) hs
    | cons s0 s' =>
      rw [hsr] at hu
      have h0 : s0 = ch := by
        have := congrArg (fun l => l.head?) hu
        simpa using this
      subst h0
      rw [hdata, hsr, matchObjExcel_none_of_head s' hsp hd]

theorem searchObjRe_leftmost :
    ∀ (l : List Char) (i : Nat) r, CopyRel.matchObjRe (l.drop i) = some r →
    (∀ j, j < i → CopyRel.matchObjRe (l.drop j) = none) →
    CopyRel.searchObjRe l = some r := by
  intro l i
  induction i generalizing l with
  | zero =>
    intro r h _
    rw [List.drop_zero] at h
    cases l with
    | nil => simpa [CopyRel.searchObjRe] using h
    | cons c t => simp [CopyRel.searchObjRe, h]
  | succ i ih =>
    intro r h hnone
    have h0 : CopyRel.matchObjRe l = none := by
      simpa using hnone 0 (Nat.succ_pos i)
    cases l with
    | nil =>
      rw [List.drop_nil] at h
      rw [h0] at h
      exact Option.noConfusion h
    | cons c t =>
      have hstep : CopyRel.searchObjRe (c :: t) = CopyRel.searchObjRe t := by
        simp [CopyRel.searchObjRe, h0]
      rw [hstep]
      refine ih t r (by simpa using h) ?_
      intro j hj
      simpa using hnone (j + 1) (Nat.succ_lt_succ hj)

/-- C9 counterexample: the raw cell
`"id 1/1997/1063 0 or 2/1998/2000 0"` contains two substrings matching the
accepted numeric-triple patterns, and the sibling parser
(`copy_RelevantImages.parse_object_number`) does derive the identifier from
the first occurrence — yet `normalize_obj_id_from_excel`, one of the
normalizers the claim covers, returns no identifier at all, because its
pattern is `^`-anchored; so the claim "identifier normalization uses the
first matching occurrence anywhere in the string" is false as stated. -/
theorem claim9_counterexample :
    AutoDesc.normalize_obj_id_from_excel (some "id 1/1997/1063 0 or 2/1998/2000 0") = none
    ∧ CopyRel.parse_object_number (some "id 1/1997/1063 0 or 2/1998/2000 0")
      = some ("1-1997-1063-", "1997") := by
  constructor <;> decide

/-- C9 (corrected): search semantics holds only for
`copy_RelevantImages.parse_object_number`, whose unanchored `OBJ_RE.search`
derives the identifier from the leftmost matching occurrence wherever it
sits (first conjunct: if the pattern matches at position `i` and nowhere
earlier, that match is the result).  The other two cited normalizers are
start-anchored: whenever the first character (after stripping, forced here
by a non-whitespace head) is not a digit, `normalize_obj_id_from_excel` and
`copy_images_from_excel.parse_object_number` return no identifier, no
matter what matching triples occur later in the string. -/
theorem claim9_amended :
    (∀ (s : String) (i : Nat) r, CopyRel.matchObjRe (s.data.drop i) = some r →
      (∀ j, j < i → CopyRel.matchObjRe (s.data.drop j) = none) →
      CopyRel.parse_object_number (some s)
        = some (⟨r.1 ++ '-' :: (r.2.1 ++ '-' :: (r.2.2.1 ++ ['-']))⟩, ⟨r.2.1⟩))
    ∧ (∀ (ch : Char) (rest : List Char), isPySpace ch = false → ch.isDigit = false →
        AutoDesc.normalize_obj_id_from_excel (some ⟨ch :: rest⟩) = none)
    ∧ (∀ (ch : Char) (rest : List Char), isPySpace ch = false → ch.isDigit = false →
        CopyExcel.parse_object_number (some ⟨ch :: rest⟩) = none) := by
  refine ⟨?_, ?_, ?_⟩
  · intro s i r h hnone
    obtain ⟨g1, yr, g3, g4⟩ := r
    simp only [CopyRel.parse_object_number]
    rw [searchObjRe_leftmost s.data i _ h hnone]
  · intro ch rest hsp hd
    exact normalize_none_of_head rest hsp hd
  · intro ch rest hsp hd
    exact copyExcel_none_of_head rest hsp hd

/-- Witness for C9 at the concrete input `"x 1/1997/1063 0"` (match at
position 2, not at the start). -/
theorem claim9_witness :
    CopyRel.parse_object_number (some "x 1/1997/1063 0") = some ("1-1997-1063-", "1997")
    ∧ AutoDesc.normalize_obj_id_from_excel (some "x 1/1997/1063 0") = none
    ∧ CopyExcel.parse_object_number (some "x 1/1997/1063 0") = none := by
  refine ⟨?_, ?_, ?_⟩
  · exact claim9_amended.1 "x 1/1997/1063 0" 2 ("1".data, "1997".data, "1063".data, "0".data)
      (by decide) (fun j hj => by interval_cases j <;> decide)
  · exact claim9_amended.2.1 'x' " 1/1997/1063 0".data (by decide) (by decide)
  · exact claim9_amended.2.2 'x' " 1/1997/1063 0".data (by decide) (by decide)

/-! ## Claim C1 -/

theorem dedupByAux_sublist {κ : Type} [DecidableEq κ] (key : FileEntry → κ) :
    ∀ (l : List FileEntry) (seen : List κ), (dedupByAux key seen l).Sublist l := by
  intro l
  induction l with
  | nil => intro seen; simp [dedupByAux]
  | cons p rest ih =>
    intro seen
    unfold dedupByAux
    by_cases h : key p ∈ seen
    · simp only [h, if_true]
      exact (ih seen).cons p
    · simp only [h, if_false]
      exact (ih (key p :: seen)).cons₂ p

theorem dedupByAux_countP {κ : Type} [DecidableEq κ] (key : FileEntry → κ) (k : κ) :
    ∀ (l : List FileEntry) (seen : List κ),
    (dedupByAux key seen l).countP (fun p => decide (key p = k))
      = if k ∈ seen then 0 else min (l.countP (fun p => decide (key p = k))) 1 := by
  intro l
  induction l with
  | nil => intro seen; simp [dedupByAux]
  | cons p rest ih =>
    intro seen
    unfold dedupByAux
    by_cases h : key p ∈ seen
    · simp only [h, if_true]
      rw [ih seen]
      by_cases hk : k ∈ seen
      · simp [hk]
      · have hpk : (decide (key p = k)) = false := by
          simp only [decide_eq_false_iff_not]
          intro he
          exact hk (he ▸ h)
        simp [hk, List.countP_cons, hpk]
    · simp only [h, if_false, List.countP_cons]
      rw [ih (key p :: seen)]
      by_cases hk : k ∈ seen
      · have hpk : (decide (key p = k)) = false := by
          simp only [decide_eq_false_iff_not]
          intro he
          exact h (he ▸ hk)
        have hmem : k ∈ key p :: seen := List.mem_cons_of_mem _ hk
        simp [hk, hmem, hpk]
      · by_cases hek : key p = k
        · subst hek
          rw [if_pos (List.mem_cons_self (key p) seen), if_neg hk]
          have hd : (decide (key p = key p)) = true := by simp
          rw [hd]
          simp only [if_true]
          rw [Nat.min_def]
          split_ifs <;> omega
        · have hpk : (decide (key p = k)) = false := by simp [hek]
          have hmem : k ∉ key p :: seen := by
            simp only [List.mem_cons]
            rintro (h1 | h1)
            · exact hek h1.symm
            · exact hk h1
          simp [hmem, hk, hpk]

theorem dedupByAux_find? {κ : Type} [DecidableEq κ] (key : FileEntry → κ) (k : κ) :
    ∀ (l : List FileEntry) (seen : List κ), k ∉ seen →
    (dedupByAux key seen l).find? (fun p => decide (key p = k))
      = l.find? (fun p => decide (key p = k)) := by
  intro l
  induction l with
  | nil => intro seen _; simp [dedupByAux]
  | cons p rest ih =>
    intro seen hk
    unfold dedupByAux
    by_cases h : key p ∈ seen
    · have hpk : (decide (key p = k)) = false := by
        simp only [decide_eq_false_iff_not]
        intro he
        exact hk (he ▸ h)
      simp only [h, if_true]
      rw [ih seen hk, List.find?_cons_of_neg _ (by simp [hpk])]
    · by_cases hek : key p = k
      · simp only [h, if_false]
        rw [List.find?_cons_of_pos _ (by simp [hek]),
          List.find?_cons_of_pos _ (by simp [hek])]
      · have hpk : (decide (key p = k)) = false := by simp [hek]
        have hmem : k ∉ key p :: seen := by
          simp only [List.mem_cons]
          rintro (h1 | h1)
          · exact hek h1.symm
          · exact hk h1
        simp only [h, if_false]
        rw [List.find?_cons_of_neg _ (by simp [hpk]),
          List.find?_cons_of_neg _ (by simp [hpk]), ih _ hmem]

/-- C1 counterexample: the same photo name stored under both configured
roots with two different sizes.  Under the claimed key
`(lowercased filename, file size)` these are *not* duplicates, so the claim
demands one index entry for each of the two (name, size) classes; but the
`autoOpenAIDescription.py` index (`unique_by_filename`, one of the two
cited dedup sites) drops the second file because it deduplicates by
filename alone: its gathered group holds exactly one file with key
`("1-1997-0457-000-000.jpg", 20)`, while the built index holds none. -/
theorem claim1_counterexample :
    (AutoDesc.groupFor "1-1997-0457"
        [[⟨"output/aeg", "1-1997-0457-000-000", ".jpg", 10, true⟩],
         [⟨"output/schreibmaschinen", "1-1997-0457-000-000", ".jpg", 20, true⟩]]).countP
        (fun p => decide (BuildSite.keyNS p = ("1-1997-0457-000-000.jpg", 20))) = 1
    ∧ (AutoDesc.collect_images_by_object "1-1997-0457"
        [[⟨"output/aeg", "1-1997-0457-000-000", ".jpg", 10, true⟩],
         [⟨"output/schreibmaschinen", "1-1997-0457-000-000", ".jpg", 20, true⟩]]).countP
        (fun p => decide (BuildSite.keyNS p = ("1-1997-0457-000-000.jpg", 20))) = 0 := by
  constructor <;> decide

/-- C1 (corrected): `build_site.py` deduplicates by
`(lowercased filename, size)` and `autoOpenAIDescription.py` by the
lowercased filename alone; in both, exactly one entry per key class
survives and it is the first occurrence in root-list order.  Conjuncts 1–4
cover `collect_images_for_object` (order-preserving sublist; exactly
`min(count, 1)` entries per (name, size) class, both before and after the
final sort; the survivor is the first candidate with that key, hence from
the highest-priority root), conjuncts 5–8 state the same for
`unique_by_filename` / `collect_images_by_object` with the filename-only
key. -/
theorem claim1_amended :
    (∀ (objId : String) (roots : List (List FileEntry)),
      (dedupByAux BuildSite.keyNS [] (BuildSite.candidatesFor objId roots)).Sublist
        (BuildSite.candidatesFor objId roots))
    ∧ (∀ (objId : String) (roots : List (List FileEntry)) (k : String × Int),
        (dedupByAux BuildSite.keyNS [] (BuildSite.candidatesFor objId roots)).countP
            (fun p => decide (BuildSite.keyNS p = k))
          = min ((BuildSite.candidatesFor objId roots).countP
              (fun p => decide (BuildSite.keyNS p = k))) 1)
    ∧ (∀ (objId : String) (roots : List (List FileEntry)) (k : String × Int),
        (dedupByAux BuildSite.keyNS [] (BuildSite.candidatesFor objId roots)).find?
            (fun p => decide (BuildSite.keyNS p = k))
          = (BuildSite.candidatesFor objId roots).find?
              (fun p => decide (BuildSite.keyNS p = k)))
    ∧ (∀ (objId : String) (roots : List (List FileEntry)) (k : String × Int),
        (BuildSite.collect_images_for_object objId roots).countP
            (fun p => decide (BuildSite.keyNS p = k))
          = min ((BuildSite.candidatesFor objId roots).countP
              (fun p => decide (BuildSite.keyNS p = k))) 1)
    ∧ (∀ (objId : String) (roots : List (List FileEntry)),
        (AutoDesc.unique_by_filename (AutoDesc.groupFor objId roots)).Sublist
          (AutoDesc.groupFor objId roots))
    ∧ (∀ (objId : String) (roots : List (List FileEntry)) (k : String),
        (AutoDesc.unique_by_filename (AutoDesc.groupFor objId roots)).countP
            (fun p => decide (pyLower (fname p) = k))
          = min ((AutoDesc.groupFor objId roots).countP
              (fun p => decide (pyLower (fname p) = k))) 1)
    ∧ (∀ (objId : String) (roots : List (List FileEntry)) (k : String),
        (AutoDesc.unique_by_filename (AutoDesc.groupFor objId roots)).find?
            (fun p => decide (pyLower (fname p) = k))
          = (AutoDesc.groupFor objId roots).find?
              (fun p => decide (pyLower (fname p) = k)))
    ∧ (∀ (objId : String) (roots : List (List FileEntry)) (k : String),
        (AutoDesc.collect_images_by_object objId roots).countP
            (fun p => decide (pyLower (fname p) = k))
          = min ((AutoDesc.groupFor objId roots).countP
              (fun p => decide (pyLower (fname p) = k))) 1) := by
  refine ⟨?_, ?_, ?_, ?_, ?_, ?_, ?_, ?_⟩
  · intro objId roots
    exact dedupByAux_sublist _ _ _
  · intro objId roots k
    rw [dedupByAux_countP]
    simp
  · intro objId roots k
    exact dedupByAux_find? _ _ _ _ (List.not_mem_nil k)
  · intro objId roots k
    unfold BuildSite.collect_images_for_object
    rw [(List.perm_insertionSort _ _).countP_eq, dedupByAux_countP]
    simp
  · intro objId roots
    exact dedupByAux_sublist _ _ _
  · intro objId roots k
    unfold AutoDesc.unique_by_filename
    rw [dedupByAux_countP]
    simp
  · intro objId roots k
    exact dedupByAux_find? _ _ _ _ (List.not_mem_nil k)
  · intro objId roots k
    unfold AutoDesc.collect_images_by_object AutoDesc.unique_by_filename
    rw [(List.perm_insertionSort _ _).countP_eq, dedupByAux_countP]
    simp

/-- Witness for C1 (amended) at a concrete two-root state with a
name-duplicate of differing size. -/
theorem claim1_witness :
    (AutoDesc.collect_images_by_object "1-1997-0457"
        [[⟨"output/aeg", "1-1997-0457-000-000", ".jpg", 10, true⟩],
         [⟨"output/schreibmaschinen", "1-1997-0457-000-000", ".jpg", 20, true⟩]]).countP
        (fun p => decide (pyLower (fname p) = "1-1997-0457-000-000.jpg"))
      = min ((AutoDesc.groupFor "1-1997-0457"
        [[⟨"output/aeg", "1-1997-0457-000-000", ".jpg", 10, true⟩],
         [⟨"output/schreibmaschinen", "1-1997-0457-000-000", ".jpg", 20, true⟩]]).countP
        (fun p => decide (pyLower (fname p) = "1-1997-0457-000-000.jpg"))) 1 :=
  claim1_amended.2.2.2.2.2.2.2 "1-1997-0457"
    [[⟨"output/aeg", "1-1997-0457-000-000", ".jpg", 10, true⟩],
     [⟨"output/schreibmaschinen", "1-1997-0457-000-000", ".jpg", 20, true⟩]]
    "1-1997-0457-000-000.jpg"

/-! ## Claim C2 -/

theorem digitVal_le_nine {c : Char} (h : c.isDigit = true) : digitVal c ≤ 9 := by
  simp [Char.isDigit] at h
  have h2 : c.val.toNat ≤ 57 := h.2
  unfold digitVal Char.toNat
  omega
theorem digitsToNat_aux_lt :
    ∀ (l : List Char) (acc : Nat), allDigits l = true →
    l.foldl (fun a c => 10 * a + digitVal c) acc < (acc + 1) * 10 ^ l.length := by
  intro l
  induction l with
  | nil => intro acc _; simp
  | cons d t ih =>
    intro acc hall
    simp only [allDigits, List.all_cons, Bool.and_eq_true] at hall
    have hd : digitVal d ≤ 9 := digitVal_le_nine hall.1
    have h1 := ih (10 * acc + digitVal d) (by simpa [allDigits] using hall.2)
    simp only [List.foldl_cons, List.length_cons]
    refine lt_of_lt_of_le h1 ?_
    rw [pow_succ]
    calc (10 * acc + digitVal d + 1) * 10 ^ t.length
        ≤ ((acc + 1) * 10) * 10 ^ t.length := Nat.mul_le_mul_right _ (by omega)
    _ = (acc + 1) * (10 ^ t.length * 10) := by ring

theorem digitsToNat_lt {l : List Char} (h : allDigits l = true) :
    digitsToNat l < 10 ^ l.length := by
  have := digitsToNat_aux_lt l 0 h
  simpa [digitsToNat] using this

theorem parseNDigits_inv {n : Nat} {l d r : List Char}
    (h : parseNDigits n l = some (d, r)) :
    d.length = n ∧ allDigits d = true ∧ l = d ++ r := by
  simp only [parseNDigits] at h
  split at h
  · rename_i hcond
    simp only [Bool.and_eq_true, decide_eq_true_eq] at hcond
    obtain ⟨h1, h2⟩ := hcond
    obtain ⟨rfl, rfl⟩ : l.take n = d ∧ l.drop n = r := by
      injection h with h'
      injection h' with ha hb
      exact ⟨ha, hb⟩
    exact ⟨h1, h2, (List.take_append_drop n l).symm⟩
  · exact Option.noConfusion h

theorem matchSuffix_groups {l a b r : List Char}
    (h : AutoDesc.matchSuffix l = some (a, b, r)) :
    a.length = 3 ∧ allDigits a = true ∧ b.length = 3 ∧ allDigits b = true := by
  unfold AutoDesc.matchSuffix at h
  split at h
  · split at h
    · split at h
      · rename_i heqa
        split at h
        · split at h
          · rename_i heqb
            obtain ⟨rfl, rfl, _⟩ : _ ∧ _ ∧ _ := by
              injection h with h'
              injection h' with h1 h2
              injection h2 with h2 h3
              exact ⟨h1, h2, h3⟩
            obtain ⟨ha1, ha2, _⟩ := parseNDigits_inv heqa
            obtain ⟨hb1, hb2, _⟩ := parseNDigits_inv heqb
            exact ⟨ha1, ha2, hb1, hb2⟩
          · exact Option.noConfusion h
        · exact Option.noConfusion h
      · exact Option.noConfusion h
    · exact Option.noConfusion h
  · exact Option.noConfusion h

theorem lexLe_refl : ∀ l : List Char, lexLe l l = true := by
  intro l
  induction l with
  | nil => rfl
  | cons a t ih => simp [lexLe, ih]

theorem lexLe_total : ∀ l₁ l₂ : List Char, lexLe l₁ l₂ = true ∨ lexLe l₂ l₁ = true := by
  intro l₁
  induction l₁ with
  | nil => intro l₂; left; cases l₂ <;> rfl
  | cons a t ih =>
    intro l₂
    cases l₂ with
    | nil => right; rfl
    | cons b u =>
      by_cases h1 : a.val < b.val
      · left; simp [lexLe, h1]
      · by_cases h2 : b.val < a.val
        · right; simp [lexLe, h2]
        · rcases ih u with h | h
          · left; simp [lexLe, h1, h2, h]
          · right; simp [lexLe, h1, h2, h]

theorem lexLe_trans :
    ∀ l₁ l₂ l₃ : List Char, lexLe l₁ l₂ = true → lexLe l₂ l₃ = true →
    lexLe l₁ l₃ = true := by
  have tab : ∀ {x y : UInt32}, x < y → x.toNat < y.toNat := fun h => h
  have ntab : ∀ {x y : UInt32}, ¬x < y → ¬x.toNat < y.toNat := fun h hh => h hh
  intro l₁
  induction l₁ with
  | nil => intro l₂ l₃ _ _; cases l₃ <;> rfl
  | cons a t ih =>
    intro l₂ l₃ h12 h23
    cases l₂ with
    | nil => exact absurd h12 (by simp [lexLe])
    | cons b u =>
      cases l₃ with
      | nil => exact absurd h23 (by simp [lexLe])
      | cons c v =>
        by_cases hab : a.val < b.val
        · by_cases hbc : b.val < c.val
          · have hac : a.val < c.val := show a.val.toNat < c.val.toNat by
              have g1 := tab hab
              have g2 := tab hbc
              omega
            simp [lexLe, hac]
          · by_cases hcb : c.val < b.val
            · exact absurd h23 (by simp [lexLe, hbc, hcb])
            · have hac : a.val < c.val := show a.val.toNat < c.val.toNat by
                have g1 := tab hab
                have g2 := ntab hbc
                have g3 := ntab hcb
                omega
              simp [lexLe, hac]
        · by_cases hba : b.val < a.val
          · exact absurd h12 (by simp [lexLe, hab, hba])
          · have h12' : lexLe t u = true := by simpa [lexLe, hab, hba] using h12
            by_cases hbc : b.val < c.val
            · have hac : a.val < c.val := show a.val.toNat < c.val.toNat by
                have g1 := ntab hab
                have g2 := ntab hba
                have g3 := tab hbc
                omega
              simp [lexLe, hac]
            · by_cases hcb : c.val < b.val
              · exact absurd h23 (by simp [lexLe, hbc, hcb])
              · have h23' : lexLe u v = true := by simpa [lexLe, hbc, hcb] using h23
                have hac1 : ¬a.val < c.val := by
                  intro hh
                  have g1 := ntab hab
                  have g2 := ntab hba
                  have g3 := ntab hbc
                  have g4 := ntab hcb
                  have g5 := tab hh
                  omega
                have hac2 : ¬c.val < a.val := by
                  intro hh
                  have g1 := ntab hab
                  have g2 := ntab hba
                  have g3 := ntab hbc
                  have g4 := ntab hcb
                  have g5 := tab hh
                  omega
                simp [lexLe, hac1, hac2, ih u v h12' h23']

theorem keyLe_iff (x y : SortKey) :
    keyLe x y = true ↔
      (x.1 < y.1 ∨ (x.1 = y.1 ∧ (x.2.1 < y.2.1 ∨
        (x.2.1 = y.2.1 ∧ lexLe x.2.2 y.2.2 = true)))) := by
  unfold keyLe
  by_cases h1 : x.1 < y.1
  · rw [if_pos h1]
    simp [h1]
  · rw [if_neg h1]
    by_cases h2 : y.1 < x.1
    · rw [if_pos h2]
      constructor
      · intro hh
        exact absurd hh (by simp)
      · rintro (hh | ⟨he, _⟩) <;> omega
    · rw [if_neg h2]
      by_cases h3 : x.2.1 < y.2.1
      · rw [if_pos h3]
        constructor
        · intro _
          exact Or.inr ⟨by omega, Or.inl h3⟩
        · intro _
          rfl
      · rw [if_neg h3]
        by_cases h4 : y.2.1 < x.2.1
        · rw [if_pos h4]
          constructor
          · intro hh
            exact absurd hh (by simp)
          · rintro (hh | ⟨he2, hh | ⟨he3, _⟩⟩) <;> omega
        · rw [if_neg h4]
          constructor
          · intro hh
            exact Or.inr ⟨by omega, Or.inr ⟨by omega, hh⟩⟩
          · rintro (hh | ⟨_, hh | ⟨_, hh⟩⟩)
            · omega
            · omega
            · exact hh

theorem keyLe_total : ∀ x y : SortKey, keyLe x y = true ∨ keyLe y x = true := by
  intro x y
  rw [keyLe_iff, keyLe_iff]
  rcases Nat.lt_trichotomy x.1 y.1 with h1 | h1 | h1
  · exact Or.inl (Or.inl h1)
  · rcases Nat.lt_trichotomy x.2.1 y.2.1 with h2 | h2 | h2
    · exact Or.inl (Or.inr ⟨h1, Or.inl h2⟩)
    · rcases lexLe_total x.2.2 y.2.2 with h3 | h3
      · exact Or.inl (Or.inr ⟨h1, Or.inr ⟨h2, h3⟩⟩)
      · exact Or.inr (Or.inr ⟨h1.symm, Or.inr ⟨h2.symm, h3⟩⟩)
    · exact Or.inr (Or.inr ⟨h1.symm, Or.inl h2⟩)
  · exact Or.inr (Or.inl h1)

theorem keyLe_trans :
    ∀ x y z : SortKey, keyLe x y = true → keyLe y z = true → keyLe x z = true := by
  intro x y z hxy hyz
  rw [keyLe_iff] at hxy hyz ⊢
  rcases hxy with h1 | ⟨e1, h1'⟩ <;> rcases hyz with h2 | ⟨e2, h2'⟩
  · exact Or.inl (by omega)
  · exact Or.inl (by omega)
  · exact Or.inl (by omega)
  · refine Or.inr ⟨by omega, ?_⟩
    rcases h1' with h3 | ⟨e3, h3'⟩ <;> rcases h2' with h4 | ⟨e4, h4'⟩
    · exact Or.inl (by omega)
    · exact Or.inl (by omega)
    · exact Or.inl (by omega)
    · exact Or.inr ⟨by omega, lexLe_trans _ _ _ h3' h4'⟩

theorem suffix_key_auto_parse {e : FileEntry} {a b r : List Char}
    (h : AutoDesc.matchSuffix e.stem.data = some (a, b, r)) :
    AutoDesc.suffix_sort_key e = (digitsToNat a, digitsToNat b, (pyLower e.stem).data)
    ∧ digitsToNat a < 999999 ∧ digitsToNat b < 999999 := by
  obtain ⟨ha1, ha2, hb1, hb2⟩ := matchSuffix_groups h
  have hba : digitsToNat a < 1000 := by
    have := digitsToNat_lt ha2
    rw [ha1] at this
    simpa using this
  have hbb : digitsToNat b < 1000 := by
    have := digitsToNat_lt hb2
    rw [hb1] at this
    simpa using this
  refine ⟨?_, by omega, by omega⟩
  simp [AutoDesc.suffix_sort_key, h]

theorem suffix_key_auto_none {e : FileEntry}
    (h : AutoDesc.matchSuffix e.stem.data = none) :
    AutoDesc.suffix_sort_key e = (999999, 999999, (pyLower (fname e)).data) := by
  simp [AutoDesc.suffix_sort_key, h]

theorem matchSuffixFull_groups {l a b : List Char}
    (h : BuildSite.matchSuffixFull l = some (a, b)) :
    a.length = 3 ∧ allDigits a = true ∧ b.length = 3 ∧ allDigits b = true := by
  unfold BuildSite.matchSuffixFull at h
  split at h
  · rename_i a' b' rest heq
    split at h
    · obtain ⟨rfl, rfl⟩ : a' = a ∧ b' = b := by
        injection h with h'
        injection h' with h1 h2
        exact ⟨h1, h2⟩
      exact matchSuffix_groups heq
    · exact Option.noConfusion h
  · exact Option.noConfusion h

theorem suffix_key_site_parse {e : FileEntry} {a b : List Char}
    (h : BuildSite.matchSuffixFull e.stem.data = some (a, b)) :
    BuildSite.suffix_sort_key e = (digitsToNat a, digitsToNat b, (pyLower (fname e)).data)
    ∧ digitsToNat a < 999999 ∧ digitsToNat b < 999999 := by
  obtain ⟨ha1, ha2, hb1, hb2⟩ := matchSuffixFull_groups h
  have hba : digitsToNat a < 1000 := by
    have := digitsToNat_lt ha2
    rw [ha1] at this
    simpa using this
  have hbb : digitsToNat b < 1000 := by
    have := digitsToNat_lt hb2
    rw [hb1] at this
    simpa using this
  refine ⟨?_, by omega, by omega⟩
  simp [BuildSite.suffix_sort_key, h]

theorem suffix_key_site_none {e : FileEntry}
    (h : BuildSite.matchSuffixFull e.stem.data = none) :
    BuildSite.suffix_sort_key e = (999999, 999999, (pyLower (fname e)).data) := by
  simp [BuildSite.suffix_sort_key, h]

theorem auto_none_after {x y : FileEntry}
    (hxy : leByKey AutoDesc.suffix_sort_key x y)
    (hx : AutoDesc.matchSuffix x.stem.data = none) :
    AutoDesc.matchSuffix y.stem.data = none := by
  cases hy : AutoDesc.matchSuffix y.stem.data with
  | none => rfl
  | some v =>
    obtain ⟨a, b, r⟩ := v
    exfalso
    obtain ⟨hky, hba, _⟩ := suffix_key_auto_parse hy
    have hkx := suffix_key_auto_none hx
    unfold leByKey at hxy
    rw [hkx, hky, keyLe_iff] at hxy
    rcases hxy with hh | ⟨hh, _⟩ <;> simp at hh <;> omega

theorem site_none_after {x y : FileEntry}
    (hxy : leByKey BuildSite.suffix_sort_key x y)
    (hx : BuildSite.matchSuffixFull x.stem.data = none) :
    BuildSite.matchSuffixFull y.stem.data = none := by
  cases hy : BuildSite.matchSuffixFull y.stem.data with
  | none => rfl
  | some v =>
    obtain ⟨a, b⟩ := v
    exfalso
    obtain ⟨hky, hba, _⟩ := suffix_key_site_parse hy
    have hkx := suffix_key_site_none hx
    unfold leByKey at hxy
    rw [hkx, hky, keyLe_iff] at hxy
    rcases hxy with hh | ⟨hh, _⟩ <;> simp at hh <;> omega

theorem pairwise_leByKey_insertionSort (k : FileEntry → SortKey) (l : List FileEntry) :
    (List.insertionSort (leByKey k) l).Pairwise (leByKey k) := by
  have htot : IsTotal FileEntry (leByKey k) := ⟨fun a b => keyLe_total (k a) (k b)⟩
  have htrans : IsTrans FileEntry (leByKey k) :=
    ⟨fun a b c hab hbc => keyLe_trans (k a) (k b) (k c) hab hbc⟩
  exact @List.sorted_insertionSort FileEntry (leByKey k) _ htot htrans l

/-- C2 (confirmed): both image indices sort each object's group by the
`suffix_sort_key` order.  Conjuncts 1–3 (`autoOpenAIDescription.py`) and
7–9 (`build_site.py`): the produced list is a permutation of the de-duped
group, pairwise ordered under the key comparison, and no entry with a
parseable sequence ever follows one without.  Conjuncts 4–5 and 10–11 pin
down the keys: a parseable filename is keyed by its two sequence groups
*as numbers* (`int(a)`, `int(b)`), both below the `999999` sentinel that
keys unparseable filenames.  Conjunct 6 spells out that the key comparison
is numeric on the sequence groups with the lowercased string as the final
lexicographic tiebreak.  Conjunct 12 checks the spec's example order
`000-000, 000-001, 000-010` on a concrete state. -/
theorem claim2_sort_order :
    (∀ (objId : String) (roots : List (List FileEntry)),
      (AutoDesc.collect_images_by_object objId roots).Perm
        (AutoDesc.unique_by_filename (AutoDesc.groupFor objId roots)))
    ∧ (∀ (objId : String) (roots : List (List FileEntry)),
        (AutoDesc.collect_images_by_object objId roots).Pairwise
          (leByKey AutoDesc.suffix_sort_key))
    ∧ (∀ (objId : String) (roots : List (List FileEntry)),
        (AutoDesc.collect_images_by_object objId roots).Pairwise
          (fun x y => AutoDesc.matchSuffix x.stem.data = none →
            AutoDesc.matchSuffix y.stem.data = none))
    ∧ (∀ (e : FileEntry) (a b r : List Char),
        AutoDesc.matchSuffix e.stem.data = some (a, b, r) →
        AutoDesc.suffix_sort_key e = (digitsToNat a, digitsToNat b, (pyLower e.stem).data)
          ∧ digitsToNat a < 999999 ∧ digitsToNat b < 999999)
    ∧ (∀ e : FileEntry, AutoDesc.matchSuffix e.stem.data = none →
        AutoDesc.suffix_sort_key e = (999999, 999999, (pyLower (fname e)).data))
    ∧ (∀ x y : SortKey, keyLe x y = true ↔
        (x.1 < y.1 ∨ (x.1 = y.1 ∧ (x.2.1 < y.2.1 ∨
          (x.2.1 = y.2.1 ∧ lexLe x.2.2 y.2.2 = true)))))
    ∧ (∀ (objId : String) (roots : List (List FileEntry)),
        (BuildSite.collect_images_for_object objId roots).Perm
          (dedupByAux BuildSite.keyNS [] (BuildSite.candidatesFor objId roots)))
    ∧ (∀ (objId : String) (roots : List (List FileEntry)),
        (BuildSite.collect_images_for_object objId roots).Pairwise
          (leByKey BuildSite.suffix_sort_key))
    ∧ (∀ (objId : String) (roots : List (List FileEntry)),
        (BuildSite.collect_images_for_object objId roots).Pairwise
          (fun x y => BuildSite.matchSuffixFull x.stem.data = none →
            BuildSite.matchSuffixFull y.stem.data = none))
    ∧ (∀ (e : FileEntry) (a b : List Char),
        BuildSite.matchSuffixFull e.stem.data = some (a, b) →
        BuildSite.suffix_sort_key e
            = (digitsToNat a, digitsToNat b, (pyLower (fname e)).data)
          ∧ digitsToNat a < 999999 ∧ digitsToNat b < 999999)
    ∧ (∀ e : FileEntry, BuildSite.matchSuffixFull e.stem.data = none →
        BuildSite.suffix_sort_key e = (999999, 999999, (pyLower (fname e)).data))
    ∧ AutoDesc.collect_images_by_object "1-1997-0457"
        [[⟨"d", "1-1997-0457-000-010", ".jpg", 1, true⟩,
          ⟨"d", "1-1997-0457-000-001", ".jpg", 1, true⟩,
          ⟨"d", "1-1997-0457-000-000", ".jpg", 1, true⟩]]
      = [⟨"d", "1-1997-0457-000-000", ".jpg", 1, true⟩,
         ⟨"d", "1-1997-0457-000-001", ".jpg", 1, true⟩,
         ⟨"d", "1-1997-0457-000-010", ".jpg", 1, true⟩] := by
  refine ⟨?_, ?_, ?_, ?_, ?_, keyLe_iff, ?_, ?_, ?_, ?_, ?_, by decide⟩
  · intro objId roots
    exact List.perm_insertionSort _ _
  · intro objId roots
    exact pairwise_leByKey_insertionSort _ _
  · intro objId roots
    exact (pairwise_leByKey_insertionSort AutoDesc.suffix_sort_key _).imp
      (fun hxy hx => auto_none_after hxy hx)
  · intro e a b r h
    exact suffix_key_auto_parse h
  · intro e h
    exact suffix_key_auto_none h
  · intro objId roots
    exact List.perm_insertionSort _ _
  · intro objId roots
    exact pairwise_leByKey_insertionSort _ _
  · intro objId roots
    exact (pairwise_leByKey_insertionSort BuildSite.suffix_sort_key _).imp
      (fun hxy hx => site_none_after hxy hx)
  · intro e a b h
    exact suffix_key_site_parse h
  · intro e h
    exact suffix_key_site_none h

/-- Witness for C2: the ordering and permutation conjuncts instantiated at
a concrete one-root state. -/
theorem claim2_witness :
    (AutoDesc.collect_images_by_object "1-1997-0457"
        [[⟨"d", "1-1997-0457-000-010", ".jpg", 1, true⟩,
          ⟨"d", "1-1997-0457-000-000", ".jpg", 1, true⟩]]).Pairwise
      (leByKey AutoDesc.suffix_sort_key) :=
  claim2_sort_order.2.1 "1-1997-0457"
    [[⟨"d", "1-1997-0457-000-010", ".jpg", 1, true⟩,
      ⟨"d", "1-1997-0457-000-000", ".jpg", 1, true⟩]]

/-! ## Claim C5 -/

theorem fsSig_parts {a b : FileEntry} (h : fsSig a = fsSig b) :
    a.stem = b.stem ∧ a.ext = b.ext ∧ a.size = b.size ∧ a.isFile = b.isFile := by
  simp only [fsSig, Prod.mk.injEq] at h
  exact h

theorem fname_congr {a b : FileEntry} (h : fsSig a = fsSig b) : fname a = fname b := by
  obtain ⟨h1, h2, _, _⟩ := fsSig_parts h
  simp [fname, h1, h2]

theorem keyAuto_congr {a b : FileEntry} (h : fsSig a = fsSig b) :
    AutoDesc.suffix_sort_key a = AutoDesc.suffix_sort_key b := by
  obtain ⟨h1, _, _, _⟩ := fsSig_parts h
  have hf := fname_congr h
  simp only [AutoDesc.suffix_sort_key, h1, hf]

theorem keySite_congr {a b : FileEntry} (h : fsSig a = fsSig b) :
    BuildSite.suffix_sort_key a = BuildSite.suffix_sort_key b := by
  obtain ⟨h1, _, _, _⟩ := fsSig_parts h
  have hf := fname_congr h
  simp only [BuildSite.suffix_sort_key, h1, hf]

theorem keyNS_congr {a b : FileEntry} (h : fsSig a = fsSig b) :
    BuildSite.keyNS a = BuildSite.keyNS b := by
  obtain ⟨_, _, h3, _⟩ := fsSig_parts h
  have hf := fname_congr h
  simp [BuildSite.keyNS, h3, hf]

theorem forall2_filter {pr : FileEntry → Bool}
    (hpr : ∀ a b, fsSig a = fsSig b → pr a = pr b) :
    ∀ {l l' : List FileEntry}, List.Forall₂ (fun a b => fsSig a = fsSig b) l l' →
    List.Forall₂ (fun a b => fsSig a = fsSig b) (l.filter pr) (l'.filter pr) := by
  intro l l' h
  induction h with
  | nil => simp
  | cons hab htail ih =>
    rename_i a b t t'
    rw [List.filter_cons, List.filter_cons, hpr a b hab]
    by_cases hb : pr b = true
    · simp only [hb, if_true]
      exact List.Forall₂.cons hab ih
    · simp only [hb, if_false]
      exact ih

theorem forall2_append :
    ∀ {l₁ l₁' l₂ l₂' : List FileEntry},
    List.Forall₂ (fun a b => fsSig a = fsSig b) l₁ l₁' →
    List.Forall₂ (fun a b => fsSig a = fsSig b) l₂ l₂' →
    List.Forall₂ (fun a b => fsSig a = fsSig b) (l₁ ++ l₂) (l₁' ++ l₂') := by
  intro l₁ l₁' l₂ l₂' h1 h2
  induction h1 with
  | nil => simpa using h2
  | cons hab _ ih => exact List.Forall₂.cons hab ih

theorem forall2_flatMap_filter {pr : FileEntry → Bool}
    (hpr : ∀ a b, fsSig a = fsSig b → pr a = pr b) :
    ∀ {rs rs' : List (List FileEntry)},
    List.Forall₂ (List.Forall₂ (fun a b => fsSig a = fsSig b)) rs rs' →
    List.Forall₂ (fun a b => fsSig a = fsSig b)
      (rs.flatMap (fun root => root.filter pr)) (rs'.flatMap (fun root => root.filter pr)) := by
  intro rs rs' h
  induction h with
  | nil => simp
  | cons hab _ ih =>
    simp only [List.flatMap_cons]
    exact forall2_append (forall2_filter hpr hab) ih

theorem forall2_dedup {κ : Type} [DecidableEq κ] {key : FileEntry → κ}
    (hkey : ∀ a b, fsSig a = fsSig b → key a = key b) :
    ∀ {l l' : List FileEntry}, List.Forall₂ (fun a b => fsSig a = fsSig b) l l' →
    ∀ seen : List κ,
    List.Forall₂ (fun a b => fsSig a = fsSig b) (dedupByAux key seen l) (dedupByAux key seen l') := by
  intro l l' h
  induction h with
  | nil => intro seen; simp [dedupByAux]
  | cons hab htail ih =>
    rename_i a b t t'
    intro seen
    unfold dedupByAux
    rw [hkey a b hab]
    by_cases hmem : key b ∈ seen
    · simp only [hmem, if_true]
      exact ih seen
    · simp only [hmem, if_false]
      exact List.Forall₂.cons hab (ih (key b :: seen))

theorem forall2_orderedInsert {k : FileEntry → SortKey}
    (hkey : ∀ a b, fsSig a = fsSig b → k a = k b) :
    ∀ {a b : FileEntry} {l l' : List FileEntry}, fsSig a = fsSig b →
    List.Forall₂ (fun x y => fsSig x = fsSig y) l l' →
    List.Forall₂ (fun x y => fsSig x = fsSig y)
      (List.orderedInsert (leByKey k) a l) (List.orderedInsert (leByKey k) b l') := by
  intro a b l l' hab h
  induction h with
  | nil => exact List.Forall₂.cons hab List.Forall₂.nil
  | cons hcc htail ih =>
    rename_i c c' t t'
    simp only [List.orderedInsert]
    have hcond : leByKey k a c ↔ leByKey k b c' := by
      unfold leByKey
      rw [hkey a b hab, hkey c c' hcc]
    by_cases hc : leByKey k a c
    · rw [if_pos hc, if_pos (hcond.mp hc)]
      exact List.Forall₂.cons hab (List.Forall₂.cons hcc htail)
    · rw [if_neg hc, if_neg (fun hh => hc (hcond.mpr hh))]
      exact List.Forall₂.cons hcc ih

theorem forall2_insertionSort {k : FileEntry → SortKey}
    (hkey : ∀ a b, fsSig a = fsSig b → k a = k b) :
    ∀ {l l' : List FileEntry}, List.Forall₂ (fun x y => fsSig x = fsSig y) l l' →
    List.Forall₂ (fun x y => fsSig x = fsSig y)
      (List.insertionSort (leByKey k) l) (List.insertionSort (leByKey k) l') := by
  intro l l' h
  induction h with
  | nil => simp
  | cons hab _ ih =>
    simp only [List.insertionSort]
    exact forall2_orderedInsert hkey hab ih

theorem forall2_map_fsSig :
    ∀ {l l' : List FileEntry}, List.Forall₂ (fun a b => fsSig a = fsSig b) l l' →
    l.map fsSig = l'.map fsSig := by
  intro l l' h
  induction h with
  | nil => rfl
  | cons hab _ ih => simp [hab, ih]

theorem forall2_of_map_eq :
    ∀ {l l' : List FileEntry}, l.map fsSig = l'.map fsSig →
    List.Forall₂ (fun a b => fsSig a = fsSig b) l l' := by
  intro l
  induction l with
  | nil =>
    intro l' h
    cases l' with
    | nil => exact List.Forall₂.nil
    | cons b t' => exact absurd h (by simp)
  | cons a t ih =>
    intro l' h
    cases l' with
    | nil => exact absurd h (by simp)
    | cons b t' =>
      simp only [List.map_cons, List.cons.injEq] at h
      exact List.Forall₂.cons h.1 (ih h.2)

theorem forall2_roots_of_map_eq :
    ∀ {rs rs' : List (List FileEntry)},
    rs.map (List.map fsSig) = rs'.map (List.map fsSig) →
    List.Forall₂ (List.Forall₂ (fun a b => fsSig a = fsSig b)) rs rs' := by
  intro rs
  induction rs with
  | nil =>
    intro rs' h
    cases rs' with
    | nil => exact List.Forall₂.nil
    | cons b t' => exact absurd h (by simp)
  | cons a t ih =>
    intro rs' h
    cases rs' with
    | nil => exact absurd h (by simp)
    | cons b t' =>
      simp only [List.map_cons, List.cons.injEq] at h
      exact List.Forall₂.cons (forall2_of_map_eq h.1) (ih h.2)

theorem site_pred_congr (objId : String) : ∀ a b : FileEntry, fsSig a = fsSig b →
    (a.isFile && ALLOWED_EXTS.contains (pyLower a.ext)
      && pyStartsWith (pyLower (fname a)) (pyLower (objId ++ "-")))
    = (b.isFile && ALLOWED_EXTS.contains (pyLower b.ext)
      && pyStartsWith (pyLower (fname b)) (pyLower (objId ++ "-"))) := by
  intro a b h
  obtain ⟨_, h2, _, h4⟩ := fsSig_parts h
  rw [h2, h4, fname_congr h]

theorem auto_image_congr : ∀ a b : FileEntry, fsSig a = fsSig b →
    AutoDesc.is_image_file a = AutoDesc.is_image_file b := by
  intro a b h
  obtain ⟨_, h2, _, h4⟩ := fsSig_parts h
  simp [AutoDesc.is_image_file, h2, h4]

theorem auto_group_pred_congr (objId : String) : ∀ a b : FileEntry, fsSig a = fsSig b →
    (AutoDesc.extract_object_id (fname a) == some objId)
      = (AutoDesc.extract_object_id (fname b) == some objId) := by
  intro a b h
  rw [fname_congr h]

theorem collect_site_congr {roots roots' : List (List FileEntry)} (objId : String)
    (h : List.Forall₂ (List.Forall₂ (fun a b => fsSig a = fsSig b)) roots roots') :
    List.Forall₂ (fun a b => fsSig a = fsSig b)
      (BuildSite.collect_images_for_object objId roots)
      (BuildSite.collect_images_for_object objId roots') := by
  unfold BuildSite.collect_images_for_object BuildSite.candidatesFor
  exact forall2_insertionSort (fun a b hab => keySite_congr hab)
    (forall2_dedup (fun a b hab => keyNS_congr hab)
      (forall2_flatMap_filter (site_pred_congr objId) h) [])

theorem collect_auto_congr {roots roots' : List (List FileEntry)} (objId : String)
    (h : List.Forall₂ (List.Forall₂ (fun a b => fsSig a = fsSig b)) roots roots') :
    List.Forall₂ (fun a b => fsSig a = fsSig b)
      (AutoDesc.collect_images_by_object objId roots)
      (AutoDesc.collect_images_by_object objId roots') := by
  unfold AutoDesc.collect_images_by_object AutoDesc.unique_by_filename
    AutoDesc.groupFor AutoDesc.collectFiles
  exact forall2_insertionSort (fun a b hab => keyAuto_congr hab)
    (forall2_dedup (fun a b hab => fname_congr hab ▸ rfl)
      (forall2_filter (auto_group_pred_congr objId)
        (forall2_flatMap_filter auto_image_congr h)) [])

/-- C5 (confirmed): both index builders are pure functions of the observed
filesystem state.  The first two conjuncts say more: the resulting index —
viewed through everything the logic can observe (name, size, file-kind) —
depends only on that view of the enumerated state, not on incidental
attributes such as the containing directory.  The last two conjuncts state
the claim literally: building twice from the same state yields identical
mappings with identical per-object ordering (the embedding is
deterministic by construction — there is no hidden state to vary). -/
theorem claim5_deterministic (roots roots' : List (List FileEntry))
    (h : roots.map (List.map fsSig) = roots'.map (List.map fsSig)) (objId : String) :
    (BuildSite.collect_images_for_object objId roots).map fsSig
        = (BuildSite.collect_images_for_object objId roots').map fsSig
    ∧ (AutoDesc.collect_images_by_object objId roots).map fsSig
        = (AutoDesc.collect_images_by_object objId roots').map fsSig
    ∧ BuildSite.collect_images_for_object objId roots
        = BuildSite.collect_images_for_object objId roots
    ∧ AutoDesc.collect_images_by_object objId roots
        = AutoDesc.collect_images_by_object objId roots := by
  have h2 := forall2_roots_of_map_eq h
  exact ⟨forall2_map_fsSig (collect_site_congr objId h2),
    forall2_map_fsSig (collect_auto_congr objId h2), rfl, rfl⟩

/-- Witness for C5: two states holding the same file data under different
directories produce the same observable index. -/
theorem claim5_witness :
    (BuildSite.collect_images_for_object "1-1997-0457"
        [[⟨"output/aeg", "1-1997-0457-000-000", ".jpg", 7, true⟩]]).map fsSig
      = (BuildSite.collect_images_for_object "1-1997-0457"
        [[⟨"images/1997", "1-1997-0457-000-000", ".jpg", 7, true⟩]]).map fsSig :=
  (claim5_deterministic
    [[⟨"output/aeg", "1-1997-0457-000-000", ".jpg", 7, true⟩]]
    [[⟨"images/1997", "1-1997-0457-000-000", ".jpg", 7, true⟩]]
    (by decide) "1-1997-0457").1

/-! ## Claim C4 -/

theorem applyFound_of_filled {base : AutoDesc.MetaField → String}
    {found : AutoDesc.MetaEntry} {k : AutoDesc.MetaField} (h : base k ≠ "No Data") :
    AutoDesc.applyFound base found k = base k := by
  unfold AutoDesc.applyFound
  cases found k with
  | none => rfl
  | some v => exact if_neg (fun hh => h hh.1)

theorem allFilled_spec {base : AutoDesc.MetaField → String}
    (h : AutoDesc.allFilled base = true) (k : AutoDesc.MetaField) :
    base k ≠ "No Data" := by
  have hmem : k ∈ AutoDesc.FIELDS_ORDER := by
    cases k <;> simp [AutoDesc.FIELDS_ORDER]
  have := (List.all_eq_true.mp h) k hmem
  simpa using this

theorem mergeLoop_char (objId : String) :
    ∀ (maps : List AutoDesc.MetaMap) (base : AutoDesc.MetaField → String)
      (k : AutoDesc.MetaField),
    (base k ≠ "No Data" → AutoDesc.mergeLoop objId base maps k = base k)
    ∧ (base k = "No Data" →
        AutoDesc.mergeLoop objId base maps k
          = (AutoDesc.firstFieldValue objId k maps).getD "No Data") := by
  intro maps
  induction maps with
  | nil =>
    intro base k
    refine ⟨fun _ => rfl, fun h => ?_⟩
    simp [AutoDesc.mergeLoop, AutoDesc.firstFieldValue, h]
  | cons mp rest ih =>
    intro base k
    unfold AutoDesc.mergeLoop AutoDesc.firstFieldValue
    cases hg : AutoDesc.dictGet mp objId with
    | none => exact ih base k
    | some found =>
      dsimp only
      by_cases hall : AutoDesc.allFilled (AutoDesc.applyFound base found) = true
      · rw [if_pos hall]
        constructor
        · intro h
          exact applyFound_of_filled h
        · intro h
          cases hf : found k with
          | none =>
            exact absurd (show AutoDesc.applyFound base found k = "No Data" by
              simp [AutoDesc.applyFound, hf, h]) (allFilled_spec hall k)
          | some v =>
            dsimp only
            by_cases hv : AutoDesc.safe_str (some v) ≠ "No Data"
            · rw [if_pos hv]
              simp only [Option.getD_some]
              simp [AutoDesc.applyFound, hf, h, hv]
            · rw [if_neg hv]
              push_neg at hv
              exact absurd (show AutoDesc.applyFound base found k = "No Data" by
                simp [AutoDesc.applyFound, hf, h, hv]) (allFilled_spec hall k)
      · rw [if_neg hall]
        constructor
        · intro h
          have hb : AutoDesc.applyFound base found k = base k := applyFound_of_filled h
          rw [(ih (AutoDesc.applyFound base found) k).1 (hb ▸ h), hb]
        · intro h
          cases hf : found k with
          | none =>
            have hb : AutoDesc.applyFound base found k = "No Data" := by
              simp [AutoDesc.applyFound, hf, h]
            rw [(ih (AutoDesc.applyFound base found) k).2 hb]
          | some v =>
            dsimp only
            by_cases hv : AutoDesc.safe_str (some v) ≠ "No Data"
            · rw [if_pos hv]
              simp only [Option.getD_some]
              have hb : AutoDesc.applyFound base found k = AutoDesc.safe_str (some v) := by
                simp [AutoDesc.applyFound, hf, h, hv]
              rw [(ih (AutoDesc.applyFound base found) k).1 (hb ▸ hv), hb]
            · rw [if_neg hv]
              push_neg at hv
              have hb : AutoDesc.applyFound base found k = "No Data" := by
                simp [AutoDesc.applyFound, hf, h, hv]
              rw [(ih (AutoDesc.applyFound base found) k).2 hb]

theorem firstFieldValue_ne_sentinel {objId : String} {k : AutoDesc.MetaField} {v : String} :
    ∀ {maps : List AutoDesc.MetaMap},
    AutoDesc.firstFieldValue objId k maps = some v → v ≠ "No Data" := by
  intro maps
  induction maps with
  | nil => intro h; exact Option.noConfusion h
  | cons mp rest ih =>
    intro h
    unfold AutoDesc.firstFieldValue at h
    split at h
    · split at h
      · split at h
        · rename_i hv
          injection h with h'
          exact h' ▸ hv
        · exact ih h
      · exact ih h
    · exact ih h

/-- C4 (confirmed): the merged record equals, field by field, the first
non-sentinel value offered by the sources in priority order — so a later
source never overwrites an earlier fill, the `break` once all eight fields
are filled changes nothing, and every field of the (total) record is
defined; when no source provides an inventory number, the identifier
itself is substituted. -/
theorem claim4_merge (objId : String) (maps : List AutoDesc.MetaMap)
    (k : AutoDesc.MetaField) :
    AutoDesc.build_metadata_for_object objId maps k
      = match AutoDesc.firstFieldValue objId k maps with
        | some v => v
        | none => if k = AutoDesc.MetaField.inventoryNo then objId else "No Data" := by
  have hchar := mergeLoop_char objId maps (fun _ => "No Data")
  have hk := (hchar k).2 rfl
  have hinv := (hchar AutoDesc.MetaField.inventoryNo).2 rfl
  unfold AutoDesc.build_metadata_for_object
  by_cases hkinv : k = AutoDesc.MetaField.inventoryNo
  · subst hkinv
    cases hf : AutoDesc.firstFieldValue objId AutoDesc.MetaField.inventoryNo maps with
    | some v =>
      have hv : v ≠ "No Data" := firstFieldValue_ne_sentinel hf
      rw [hf] at hinv
      simp only [Option.getD_some] at hinv
      rw [if_neg (fun hh => hv (hinv ▸ hh.1))]
      exact hinv
    | none =>
      rw [hf] at hinv
      simp only [Option.getD_none] at hinv
      rw [if_pos ⟨hinv, rfl⟩]
      simp
  · rw [if_neg (fun hh => hkinv hh.2), hk]
    cases hf : AutoDesc.firstFieldValue objId k maps with
    | some v => simp
    | none => simp [hkinv]

/-- Witness for C4: with no sources the inventory number falls back to the
identifier. -/
theorem claim4_witness :
    AutoDesc.build_metadata_for_object "9-9999-9999" [] AutoDesc.MetaField.inventoryNo
      = "9-9999-9999" :=
  (claim4_merge "9-9999-9999" [] AutoDesc.MetaField.inventoryNo).trans (by decide)

/-! ## Claim C6 -/

theorem runLoop_eq (descOf : String → Except String String)
    (mdMaps : List AutoDesc.MetaMap) :
    ∀ (objs done : List String) (budget : Nat), objs.Nodup →
    AutoDesc.runLoop descOf mdMaps done budget objs
      = ((objs.filter (fun o => decide (o ∉ done))).take budget).map
          (AutoDesc.processRow descOf mdMaps) := by
  intro objs
  induction objs with
  | nil => intro done budget _; simp [AutoDesc.runLoop]
  | cons o rest ih =>
    intro done budget hnd
    have ho : o ∉ rest := (List.nodup_cons.mp hnd).1
    have hnd' : rest.Nodup := (List.nodup_cons.mp hnd).2
    unfold AutoDesc.runLoop
    by_cases hdone : o ∈ done
    · rw [if_pos hdone, ih done budget hnd', List.filter_cons,
        if_neg (by simp [hdone])]
    · rw [if_neg hdone]
      cases budget with
      | zero => simp
      | succ b =>
        dsimp only
        rw [ih (o :: done) b hnd', List.filter_cons, if_pos (by simp [hdone])]
        have hfilter : rest.filter (fun x => decide (x ∉ o :: done))
            = rest.filter (fun x => decide (x ∉ done)) := by
          apply List.filter_congr
          intro x hx
          apply decide_eq_decide.mpr
          have hxo : x ≠ o := fun hh => ho (hh ▸ hx)
          simp [List.mem_cons, hxo]
        rw [hfilter, List.take_succ_cons, List.map_cons]

theorem runLoop_mem (descOf : String → Except String String)
    (mdMaps : List AutoDesc.MetaMap) :
    ∀ (objs done : List String) (budget : Nat) (r : AutoDesc.ResultRow),
    r ∈ AutoDesc.runLoop descOf mdMaps done budget objs →
    ∃ o, o ∈ objs ∧ o ∉ done ∧ r = AutoDesc.processRow descOf mdMaps o := by
  intro objs
  induction objs with
  | nil =>
    intro done budget r h
    simp [AutoDesc.runLoop] at h
  | cons o rest ih =>
    intro done budget r h
    unfold AutoDesc.runLoop at h
    by_cases hdone : o ∈ done
    · rw [if_pos hdone] at h
      obtain ⟨o', h1, h2, h3⟩ := ih done budget r h
      exact ⟨o', List.mem_cons_of_mem _ h1, h2, h3⟩
    · rw [if_neg hdone] at h
      cases budget with
      | zero => exact absurd h (List.not_mem_nil r)
      | succ b =>
        dsimp only at h
        rcases List.mem_cons.mp h with h' | h'
        · exact ⟨o, List.mem_cons_self o rest, hdone, h'⟩
        · obtain ⟨o', h1, h2, h3⟩ := ih (o :: done) b r h'
          exact ⟨o', List.mem_cons_of_mem _ h1,
            fun hh => h2 (List.mem_cons_of_mem _ hh), h3⟩

/-- C6 (confirmed): the rows a run appends are exactly the first
`BATCH_LIMIT` identifiers *not* in the reconstructed done set, in order
(first conjunct) — so the batch cap counts only newly processed objects,
however many rows the store already holds; no appended row repeats an
identifier already present in the store (second conjunct); and at most
`BATCH_LIMIT` rows are appended (third conjunct). -/
theorem claim6_resume_batch (descOf : String → Except String String)
    (mdMaps : List AutoDesc.MetaMap) (store : List AutoDesc.ResultRow)
    (objs : List String) (hnd : objs.Nodup)
    (hids : ∀ r ∈ store, pyStrip r.object_id = r.object_id) :
    AutoDesc.mainNewRows descOf mdMaps store objs
      = ((objs.filter (fun o => decide (o ∉ AutoDesc.doneFrom store))).take
          AutoDesc.BATCH_LIMIT).map (AutoDesc.processRow descOf mdMaps)
    ∧ (∀ r₀ ∈ store, ∀ r ∈ AutoDesc.mainNewRows descOf mdMaps store objs,
        r.object_id ≠ r₀.object_id)
    ∧ (AutoDesc.mainNewRows descOf mdMaps store objs).length
        ≤ AutoDesc.BATCH_LIMIT := by
  have h1 := runLoop_eq descOf mdMaps objs (AutoDesc.doneFrom store)
    AutoDesc.BATCH_LIMIT hnd
  refine ⟨h1, ?_, ?_⟩
  · intro r₀ h₀ r hr heq
    obtain ⟨o, _, hnotdone, rfl⟩ :=
      runLoop_mem descOf mdMaps objs (AutoDesc.doneFrom store)
        AutoDesc.BATCH_LIMIT r hr
    apply hnotdone
    have hmem : r₀.object_id ∈ AutoDesc.doneFrom store :=
      List.mem_map.mpr ⟨r₀, h₀, hids r₀ h₀⟩
    have hoid : (AutoDesc.processRow descOf mdMaps o).object_id = o := rfl
    rw [hoid] at heq
    exact heq ▸ hmem
  · rw [show AutoDesc.mainNewRows descOf mdMaps store objs
        = AutoDesc.runLoop descOf mdMaps (AutoDesc.doneFrom store)
            AutoDesc.BATCH_LIMIT objs from rfl, h1]
    simp

/-- Witness for C6 at a concrete store and object list. -/
theorem claim6_witness :
    (AutoDesc.mainNewRows (fun _ => Except.ok "t") []
        [⟨"1-1997-0457", "d", "m"⟩] ["1-1997-0457", "1-1997-0458"]).length
      ≤ AutoDesc.BATCH_LIMIT :=
  (claim6_resume_batch (fun _ => Except.ok "t") [] [⟨"1-1997-0457", "d", "m"⟩]
    ["1-1997-0457", "1-1997-0458"] (by decide) (by decide)).2.2

/-! ## Claim C7 -/

theorem runRetryAux_allTransient (call : Nat → AutoDesc.ApiOutcome) (jitter : Nat → ℚ) :
    ∀ (rem attempt : Nat) (wait : ℚ),
    (∀ i, attempt ≤ i → i < attempt + rem →
      ∃ m, call i = .failure m
        ∧ (AutoDesc.isRateLimitMsg m || AutoDesc.isServerMsg m) = true) →
    (AutoDesc.runRetryAux call jitter attempt wait rem).outcome = .maxRetriesExceeded
    ∧ (AutoDesc.runRetryAux call jitter attempt wait rem).calls = rem := by
  intro rem
  induction rem with
  | zero => intro attempt wait _; exact ⟨rfl, rfl⟩
  | succ r ih =>
    intro attempt wait htrans
    obtain ⟨m, hm, hclass⟩ := htrans attempt (le_refl _) (by omega)
    obtain ⟨ho, hc⟩ := ih (attempt + 1) (min (wait * (9 / 5)) 30)
      (fun i h1 h2 => htrans i (by omega) (by omega))
    unfold AutoDesc.runRetryAux
    rw [hm]
    dsimp only
    by_cases hrl : AutoDesc.isRateLimitMsg m = true
    · rw [if_pos hrl]
      exact ⟨ho, by simp [hc]⟩
    · have hsv : AutoDesc.isServerMsg m = true := by
        cases hx : AutoDesc.isRateLimitMsg m with
        | true => exact absurd hx hrl
        | false =>
          cases hy : AutoDesc.isServerMsg m with
          | true => rfl
          | false => rw [hx, hy] at hclass; exact absurd hclass (by decide)
      rw [if_neg hrl, if_pos hsv]
      exact ⟨ho, by simp [hc]⟩

theorem runRetryAux_raise (call : Nat → AutoDesc.ApiOutcome) (jitter : Nat → ℚ) :
    ∀ (k rem attempt : Nat) (wait : ℚ) (msg : String), k < rem →
    (∀ i, attempt ≤ i → i < attempt + k →
      ∃ m, call i = .failure m
        ∧ (AutoDesc.isRateLimitMsg m || AutoDesc.isServerMsg m) = true) →
    call (attempt + k) = .failure msg →
    AutoDesc.isRateLimitMsg msg = false → AutoDesc.isServerMsg msg = false →
    (AutoDesc.runRetryAux call jitter attempt wait rem).outcome = .raised msg
    ∧ (AutoDesc.runRetryAux call jitter attempt wait rem).calls = k + 1 := by
  intro k
  induction k with
  | zero =>
    intro rem attempt wait msg hk _ hcall hr hs
    obtain ⟨r, rfl⟩ : ∃ r, rem = r + 1 := ⟨rem - 1, by omega⟩
    rw [show attempt + 0 = attempt from rfl] at hcall
    unfold AutoDesc.runRetryAux
    rw [hcall]
    dsimp only
    rw [if_neg (by simp [hr]), if_neg (by simp [hs])]
    exact ⟨rfl, rfl⟩
  | succ k ih =>
    intro rem attempt wait msg hk htrans hcall hr hs
    obtain ⟨r, rfl⟩ : ∃ r, rem = r + 1 := ⟨rem - 1, by omega⟩
    obtain ⟨m, hm, hclass⟩ := htrans attempt (le_refl _) (by omega)
    obtain ⟨ho, hc⟩ := ih r (attempt + 1) (min (wait * (9 / 5)) 30) msg (by omega)
      (fun i h1 h2 => htrans i (by omega) (by omega))
      (by rw [show attempt + 1 + k = attempt + (k + 1) from by omega]; exact hcall)
      hr hs
    unfold AutoDesc.runRetryAux
    rw [hm]
    dsimp only
    by_cases hrl : AutoDesc.isRateLimitMsg m = true
    · rw [if_pos hrl]
      exact ⟨ho, by simp [hc]⟩
    · have hsv : AutoDesc.isServerMsg m = true := by
        cases hx : AutoDesc.isRateLimitMsg m with
        | true => exact absurd hx hrl
        | false =>
          cases hy : AutoDesc.isServerMsg m with
          | true => rfl
          | false => rw [hx, hy] at hclass; exact absurd hclass (by decide)
      rw [if_neg hrl, if_pos hsv]
      exact ⟨ho, by simp [hc]⟩

/-- C7 (confirmed): transient outcomes (rate-limit or 5xx classified
messages) are retried up to the `MAX_RETRIES` ceiling — a run whose every
attempt is transient performs exactly `MAX_RETRIES` calls and ends in the
`RuntimeError` outcome, fatal for this object only (conjunct 1); a
non-transient failure at attempt `k` is raised immediately after exactly
`k` calls, whatever the oracle would return later (conjunct 2); in `main`,
an object whose description raised is recorded with the error placeholder
as its result and the loop continues with the remaining objects
(conjunct 3); and the exponential backoff variable is capped at 30 seconds
(conjunct 4). -/
theorem claim7_retry :
    (∀ (call : Nat → AutoDesc.ApiOutcome) (jitter : Nat → ℚ),
      (∀ i, 1 ≤ i → i ≤ AutoDesc.MAX_RETRIES →
        ∃ m, call i = .failure m
          ∧ (AutoDesc.isRateLimitMsg m || AutoDesc.isServerMsg m) = true) →
      (AutoDesc.call_openai_with_retry call jitter).outcome = .maxRetriesExceeded
      ∧ (AutoDesc.call_openai_with_retry call jitter).calls = AutoDesc.MAX_RETRIES)
    ∧ (∀ (call : Nat → AutoDesc.ApiOutcome) (jitter : Nat → ℚ) (k : Nat) (msg : String),
        1 ≤ k → k ≤ AutoDesc.MAX_RETRIES →
        (∀ i, 1 ≤ i → i < k →
          ∃ m, call i = .failure m
            ∧ (AutoDesc.isRateLimitMsg m || AutoDesc.isServerMsg m) = true) →
        call k = .failure msg →
        AutoDesc.isRateLimitMsg msg = false → AutoDesc.isServerMsg msg = false →
        (AutoDesc.call_openai_with_retry call jitter).outcome = .raised msg
        ∧ (AutoDesc.call_openai_with_retry call jitter).calls = k)
    ∧ (∀ (descOf : String → Except String String) (mdMaps : List AutoDesc.MetaMap)
        (done : List String) (b : Nat) (o : String) (rest : List String) (msg : String),
        o ∉ done → descOf o = .error msg →
        AutoDesc.runLoop descOf mdMaps done (b + 1) (o :: rest)
          = { object_id := o
              description := "[Error during description: " ++ msg ++ "]"
              metadata := AutoDesc.metadata_csv_line
                (AutoDesc.build_metadata_for_object o mdMaps) }
            :: AutoDesc.runLoop descOf mdMaps (o :: done) b rest)
    ∧ (∀ n, AutoDesc.waitIter n ≤ 30 ∨ AutoDesc.waitIter n = 2) := by
  refine ⟨?_, ?_, ?_, ?_⟩
  · intro call jitter h
    exact runRetryAux_allTransient call jitter AutoDesc.MAX_RETRIES 1 2
      (fun i h1 h2 => h i h1 (by omega))
  · intro call jitter k msg h1 h6 htrans hcall hr hs
    obtain ⟨j, rfl⟩ : ∃ j, k = j + 1 := ⟨k - 1, by omega⟩
    exact runRetryAux_raise call jitter j AutoDesc.MAX_RETRIES 1 2 msg
      (by simp only [AutoDesc.MAX_RETRIES] at h6 ⊢; omega)
      (fun i hi1 hi2 => htrans i hi1 (by omega))
      (by rw [show 1 + j = j + 1 from by omega]; exact hcall) hr hs
  · intro descOf mdMaps done b o rest msg hdone hdesc
    conv_lhs => unfold AutoDesc.runLoop
    rw [if_neg hdone]
    dsimp only
    congr 1
    simp [AutoDesc.processRow, hdesc]
  · intro n
    cases n with
    | zero => exact Or.inr rfl
    | succ m => exact Or.inl (min_le_right _ _)

/-- Witness for C7: a run whose six attempts all rate-limit exhausts the
ceiling after exactly six calls. -/
theorem claim7_witness :
    (AutoDesc.call_openai_with_retry (fun _ => .failure "HTTP 429 rate_limit")
        (fun _ => 0)).outcome = .maxRetriesExceeded
    ∧ (AutoDesc.call_openai_with_retry (fun _ => .failure "HTTP 429 rate_limit")
        (fun _ => 0)).calls = AutoDesc.MAX_RETRIES :=
  claim7_retry.1 (fun _ => .failure "HTTP 429 rate_limit") (fun _ => 0)
    (fun i _ _ => ⟨"HTTP 429 rate_limit", rfl, by decide⟩)

/-! ## Claim C10 -/

/-- C10 (confirmed): when description generation fails for an object that
this run processes (it is among the first `BATCH_LIMIT` new identifiers),
the persisted store still gains a row for it whose description is the
error placeholder (first conjunct); and any later run, reconstructing the
done set from that store, appends no row for that identifier again — the
failed object is skipped, never automatically retried (second conjunct,
for an arbitrary later oracle, metadata configuration and object list). -/
theorem claim10_failed_not_retried
    (descOf₁ descOf₂ : String → Except String String)
    (mdMaps mdMaps₂ : List AutoDesc.MetaMap)
    (store₀ : List AutoDesc.ResultRow) (objs objs₂ : List String)
    (obj msg : String)
    (hnd : objs.Nodup) (hstrip : pyStrip obj = obj)
    (hfail : descOf₁ obj = .error msg)
    (hproc : obj ∈ (objs.filter
        (fun o => decide (o ∉ AutoDesc.doneFrom store₀))).take AutoDesc.BATCH_LIMIT) :
    (∃ r ∈ store₀ ++ AutoDesc.mainNewRows descOf₁ mdMaps store₀ objs,
        r.object_id = obj
        ∧ r.description = "[Error during description: " ++ msg ++ "]")
    ∧ ∀ r ∈ AutoDesc.mainNewRows descOf₂ mdMaps₂
          (store₀ ++ AutoDesc.mainNewRows descOf₁ mdMaps store₀ objs) objs₂,
        r.object_id ≠ obj := by
  have h1 := runLoop_eq descOf₁ mdMaps objs (AutoDesc.doneFrom store₀)
    AutoDesc.BATCH_LIMIT hnd
  have hrowmem : AutoDesc.processRow descOf₁ mdMaps obj
      ∈ AutoDesc.mainNewRows descOf₁ mdMaps store₀ objs := by
    rw [show AutoDesc.mainNewRows descOf₁ mdMaps store₀ objs
      = AutoDesc.runLoop descOf₁ mdMaps (AutoDesc.doneFrom store₀)
          AutoDesc.BATCH_LIMIT objs from rfl, h1]
    exact List.mem_map_of_mem _ hproc
  constructor
  · refine ⟨AutoDesc.processRow descOf₁ mdMaps obj,
      List.mem_append_right _ hrowmem, rfl, ?_⟩
    simp [AutoDesc.processRow, hfail]
  · intro r hr heq
    obtain ⟨o, _, hnotdone, rfl⟩ := runLoop_mem descOf₂ mdMaps₂ objs₂
      (AutoDesc.doneFrom (store₀ ++ AutoDesc.mainNewRows descOf₁ mdMaps store₀ objs))
      AutoDesc.BATCH_LIMIT r hr
    apply hnotdone
    have hoid : (AutoDesc.processRow descOf₂ mdMaps₂ o).object_id = o := rfl
    rw [hoid] at heq
    subst heq
    exact List.mem_map.mpr ⟨AutoDesc.processRow descOf₁ mdMaps o,
      List.mem_append_right _ hrowmem, hstrip⟩

/-- Witness for C10: a one-object run whose description fails. -/
theorem claim10_witness :
    (∃ r ∈ ([] : List AutoDesc.ResultRow)
        ++ AutoDesc.mainNewRows (fun _ => Except.error "boom") [] [] ["1-1997-0457"],
        r.object_id = "1-1997-0457"
        ∧ r.description = "[Error during description: " ++ "boom" ++ "]")
    ∧ ∀ r ∈ AutoDesc.mainNewRows (fun _ => Except.ok "t") []
          ([] ++ AutoDesc.mainNewRows (fun _ => Except.error "boom") [] [] ["1-1997-0457"])
          ["1-1997-0457"],
        r.object_id ≠ "1-1997-0457" :=
  claim10_failed_not_retried (fun _ => Except.error "boom") (fun _ => Except.ok "t")
    [] [] [] ["1-1997-0457"] ["1-1997-0457"] "1-1997-0457" "boom"
    (by decide) (by decide) rfl (by decide)

/-! ## Claim C8 -/

theorem readStep_skip {row : AutoDesc.XRow} (h : AutoDesc.keptRow row = false)
    (m : AutoDesc.MetaMap) : AutoDesc.readStep m row = m := by
  unfold AutoDesc.readStep
  unfold AutoDesc.keptRow at h
  cases hn : AutoDesc.normalize_obj_id_from_excel (row AutoDesc.MetaField.inventoryNo) with
  | none => rfl
  | some s =>
    rw [hn] at h
    dsimp only
    simp only [decide_eq_false_iff_not, not_not] at h
    rw [if_pos h]

theorem readFold_filter :
    ∀ (rows : List AutoDesc.XRow) (m : AutoDesc.MetaMap),
    rows.foldl AutoDesc.readStep m
      = (rows.filter AutoDesc.keptRow).foldl AutoDesc.readStep m := by
  intro rows
  induction rows with
  | nil => intro m; rfl
  | cons row rest ih =>
    intro m
    rw [List.foldl_cons, List.filter_cons]
    by_cases hk : AutoDesc.keptRow row = true
    · rw [if_pos hk, List.foldl_cons, ih]
    · rw [if_neg (by simpa using hk),
        readStep_skip (Bool.not_eq_true _ ▸ hk) m, ih]

theorem keysOf_dictInsert {m : AutoDesc.MetaMap} {k : String} {v : AutoDesc.MetaEntry}
    {x : String} (hx : x ∈ (AutoDesc.dictInsert m k v).map Prod.fst) :
    x = k ∨ x ∈ m.map Prod.fst := by
  unfold AutoDesc.dictInsert at hx
  by_cases hex : m.any (fun p => p.1 == k) = true
  · rw [if_pos hex, List.map_map] at hx
    obtain ⟨q, hq, he⟩ := List.mem_map.mp hx
    simp only [Function.comp_apply] at he
    by_cases hqk : (q.1 == k) = true
    · left
      rw [if_pos hqk] at he
      exact he.symm
    · right
      rw [if_neg hqk] at he
      exact he ▸ List.mem_map_of_mem _ hq
  · rw [if_neg hex, List.map_append] at hx
    rcases List.mem_append.mp hx with h | h
    · exact Or.inr h
    · left
      simpa using h

theorem readFold_keys :
    ∀ (rows : List AutoDesc.XRow) (m : AutoDesc.MetaMap) (x : String),
    x ∈ (rows.foldl AutoDesc.readStep m).map Prod.fst →
    x ∈ m.map Prod.fst
    ∨ ∃ row ∈ rows,
        AutoDesc.normalize_obj_id_from_excel (row AutoDesc.MetaField.inventoryNo) = some x := by
  intro rows
  induction rows with
  | nil => intro m x h; exact Or.inl h
  | cons row rest ih =>
    intro m x h
    rw [List.foldl_cons] at h
    rcases ih (AutoDesc.readStep m row) x h with h' | ⟨row', h1, h2⟩
    · unfold AutoDesc.readStep at h'
      cases hn : AutoDesc.normalize_obj_id_from_excel (row AutoDesc.MetaField.inventoryNo) with
      | none =>
        rw [hn] at h'
        exact Or.inl h'
      | some obj =>
        rw [hn] at h'
        dsimp only at h'
        by_cases hobj : obj = ""
        · rw [if_pos hobj] at h'
          exact Or.inl h'
        · rw [if_neg hobj] at h'
          rcases keysOf_dictInsert h' with rfl | h''
          · exact Or.inr ⟨row, List.mem_cons_self _ _, hn⟩
          · exact Or.inl h''
    · exact Or.inr ⟨row', List.mem_cons_of_mem _ h1, h2⟩

/-- C8 (confirmed): an item from which no identifier can be derived is
skipped, never defaulted and never fatal.  Conjunct 1: the metadata reader
computes the same mapping when rows with an unparseable object-number cell
are removed beforehand — such rows contribute nothing.  Conjunct 2: every
key of the produced mapping comes from a row whose cell genuinely
normalised to that identifier, so no entry is ever defaulted.  Conjunct 3:
a file whose name yields no identifier belongs to no group and to no
per-object index.  (All embedded functions are total, so no input can
abort a run.) -/
theorem claim8_parse_failure_skips :
    (∀ rows : List AutoDesc.XRow,
      AutoDesc.read_metadata_excel rows
        = AutoDesc.read_metadata_excel (rows.filter AutoDesc.keptRow))
    ∧ (∀ (rows : List AutoDesc.XRow) (x : String),
        x ∈ (AutoDesc.read_metadata_excel rows).map Prod.fst →
        ∃ row ∈ rows,
          AutoDesc.normalize_obj_id_from_excel (row AutoDesc.MetaField.inventoryNo)
            = some x)
    ∧ (∀ p : FileEntry, AutoDesc.extract_object_id (fname p) = none →
        ∀ (objId : String) (roots : List (List FileEntry)),
        p ∉ AutoDesc.groupFor objId roots
        ∧ p ∉ AutoDesc.collect_images_by_object objId roots) := by
  refine ⟨?_, ?_, ?_⟩
  · intro rows
    exact readFold_filter rows []
  · intro rows x hx
    rcases readFold_keys rows [] x hx with h | h
    · exact absurd h (by simp)
    · exact h
  · intro p hnone objId roots
    have hgroup : p ∉ AutoDesc.groupFor objId roots := by
      intro hm
      have h2 := (List.mem_filter.mp hm).2
      rw [hnone] at h2
      exact absurd h2 (by simp)
    refine ⟨hgroup, fun hm => hgroup ?_⟩
    have hmem := (List.perm_insertionSort
      (leByKey AutoDesc.suffix_sort_key)
      (AutoDesc.unique_by_filename (AutoDesc.groupFor objId roots))).subset hm
    exact (dedupByAux_sublist _ _ _).subset hmem

/-- Witness for C8: a file with an unparseable name is absent from the
index. -/
theorem claim8_witness :
    (⟨"d", "garbage", ".jpg", 1, true⟩ : FileEntry)
      ∉ AutoDesc.collect_images_by_object "1-1997-0457"
          [[⟨"d", "garbage", ".jpg", 1, true⟩]] :=
  (claim8_parse_failure_skips.2.2 ⟨"d", "garbage", ".jpg", 1, true⟩ (by decide)
    "1-1997-0457" [[⟨"d", "garbage", ".jpg", 1, true⟩]]).2

end BIPGroup6
